import Mathlib

/-!
Verification development for the CSOPESY operating-system simulator
(multi-core scheduler, paged/contiguous memory manager, instruction
interpreter).  The definitions below are a shallow embedding of the C++
sources (`Memory.h`, `Process.h`, `Scheduler.h`, `mainMenu.h`,
`Config.h`); the theorems settle the specification claims about them.

Machine integers: the C++ code stores sizes in `size_t` (64-bit,
wrapping).  We model `size_t` values as `Nat` and make the wrap explicit
with `% 2^64` exactly at the operations where the C++ code can wrap
(`add64`, `sub64`, `mul64`).  C++ `int` fields that can meaningfully go
negative are modelled as `Int`; counters that the code only ever
increments from zero are modelled as `Nat`.

File I/O (the backing-store file, per-process log files) is modelled as
the in-memory list of the records the code appends; the textual
formatting and timestamps of the display layer are not modelled.
-/

namespace CSOPESY

/-- Width of the C++ `size_t` type (64 bits). -/
def W64 : Nat := 2 ^ 64

/-- Wrapping `size_t` addition. -/
def add64 (a b : Nat) : Nat := (a + b) % W64

/-- Wrapping `size_t` subtraction: `a - b` computed modulo `2^64`. -/
def sub64 (a b : Nat) : Nat := (a % W64 + (W64 - b % W64)) % W64

/-- Wrapping `size_t` multiplication. -/
def mul64 (a b : Nat) : Nat := (a * b) % W64

/-- Replace the element at position `n` by `f` of it (like writing through
`v[n]` in C++); out-of-range indices leave the list unchanged. -/
def listModify {α : Type} (l : List α) (n : Nat) (f : α → α) : List α :=
  match l, n with
  | [], _ => []
  | a :: rest, 0 => f a :: rest
  | a :: rest, n + 1 => a :: listModify rest n f

/-- Insert `a` before position `n` (like `v.insert(v.begin()+n, a)`);
an index past the end appends (the C++ code never does that). -/
def listInsertIdx {α : Type} : List α → Nat → α → List α
  | l, 0, a => a :: l
  | [], _ + 1, a => [a]
  | b :: l, n + 1, a => b :: listInsertIdx l n a

/-! ## Memory manager data model (src/Memory.h) -/

/-- MemoryFrame from Memory.h: one frame of physical memory in paging mode. -/
structure MemoryFrame where
  frameNumber : Nat
  isFree : Bool
  processID : Int
  processName : String
  size : Nat
  timestamp : Nat
  deriving Repr, DecidableEq

/-- MemoryFrame constructor `MemoryFrame(int num)`. -/
def MemoryFrame.init (num : Nat) : MemoryFrame :=
  { frameNumber := num, isFree := true, processID := -1, processName := "",
    size := 0, timestamp := 0 }

/-- MemoryBlock from Memory.h: one region in flat (contiguous) mode. -/
structure MemoryBlock where
  startAddress : Nat
  size : Nat
  isFree : Bool
  processID : Int
  processName : String
  timestamp : Nat
  deriving Repr, DecidableEq

/-- MemoryBlock constructor `MemoryBlock(size_t start, size_t sz)`. -/
def MemoryBlock.init (start sz : Nat) : MemoryBlock :=
  { startAddress := start, size := sz, isFree := true, processID := -1,
    processName := "", timestamp := 0 }

/-- ProcessMemoryInfo from Memory.h: per-process allocation record. -/
structure ProcessMemoryInfo where
  processID : Int
  processName : String
  memoryRequired : Nat
  memoryAllocated : Nat
  frameNumbers : List Nat
  startAddress : Nat
  allocationTime : Nat
  numPages : Nat
  deriving Repr, DecidableEq

/-- MemoryManager::AllocationType. -/
inductive AllocationType where
  | FLAT
  | PAGING
  deriving Repr, DecidableEq

/-- MemoryManager::AllocationStrategy. -/
inductive AllocationStrategy where
  | FIRST_FIT
  | BEST_FIT
  | WORST_FIT
  deriving Repr, DecidableEq

/-- One record appended to the backing-store file by
`writeFrameToBackingStore` (the `FRAME ... PID ... NAME ... SIZEKB ...`
line; the TIME field is wall-clock display text and is not modelled). -/
structure BackingStoreEntry where
  frameNumber : Nat
  processID : Int
  processName : String
  sizeKB : Nat
  deriving Repr, DecidableEq

/-- The MemoryManager state.  `processMemoryMap` is a `std::map` keyed by
process id; we model it as an association list (the code checks for key
absence before inserting, so keys stay distinct; key order is not
observable by any modelled operation).  `backingStore` is the list of
records appended to the backing-store file. -/
structure MemoryManager where
  maxMemorySize : Nat
  memPerFrame : Nat
  minMemPerProcess : Nat
  maxMemPerProcess : Nat
  allocationType : AllocationType
  allocationStrategy : AllocationStrategy
  frames : List MemoryFrame
  blocks : List MemoryBlock
  processMemoryMap : List (Int × ProcessMemoryInfo)
  totalAllocated : Nat
  totalFree : Nat
  totalProcessesAllocated : Int
  allocationFailures : Nat
  backingStore : List BackingStoreEntry
  pagesPagedOut : Nat
  deriving Repr, DecidableEq

/-- Lookup in the process-memory map (`processMemoryMap.find(pid)`). -/
def mapFind? (m : List (Int × ProcessMemoryInfo)) (pid : Int) :
    Option ProcessMemoryInfo :=
  (m.find? (fun e => e.1 == pid)).map (fun e => e.2)

/-- Erase a key from the process-memory map (`processMemoryMap.erase(it)`;
keys are distinct, so filtering removes exactly the found entry). -/
def mapErase (m : List (Int × ProcessMemoryInfo)) (pid : Int) :
    List (Int × ProcessMemoryInfo) :=
  m.filter (fun e => !(e.1 == pid))

/-- MemoryManager::initializePaging: frames numbered `0 .. total/frame - 1`. -/
def initFrames (numFrames : Nat) : List MemoryFrame :=
  (List.range numFrames).map MemoryFrame.init

/-- The MemoryManager constructor (including `initializeFlatMemory` /
`initializePaging` and truncation of the backing store). -/
def MemoryManager.create (maxMem memFrame minMem maxMemProc : Nat)
    (type : AllocationType) (strategy : AllocationStrategy) : MemoryManager :=
  { maxMemorySize := maxMem, memPerFrame := memFrame,
    minMemPerProcess := minMem, maxMemPerProcess := maxMemProc,
    allocationType := type, allocationStrategy := strategy,
    frames := if type = AllocationType.PAGING then initFrames (maxMem / memFrame) else [],
    blocks := if type = AllocationType.PAGING then [] else [MemoryBlock.init 0 maxMem],
    processMemoryMap := [], totalAllocated := 0, totalFree := maxMem,
    totalProcessesAllocated := 0, allocationFailures := 0,
    backingStore := [], pagesPagedOut := 0 }

/-- A block can satisfy a request (`blocks[i].isFree && blocks[i].size >= size`). -/
def blockSuitable (sz : Nat) (b : MemoryBlock) : Prop :=
  b.isFree = true ∧ sz ≤ b.size

instance (sz : Nat) (b : MemoryBlock) : Decidable (blockSuitable sz b) := by
  unfold blockSuitable; infer_instance

/-- Loop body of MemoryManager::findFirstFitBlock; `i` is the index of the
head of `blocks` in the original vector. -/
def findFirstFitAux (blocks : List MemoryBlock) (i : Nat) (sz : Nat) : Int :=
  match blocks with
  | [] => -1
  | b :: rest =>
      if blockSuitable sz b then (i : Int) else findFirstFitAux rest (i + 1) sz

/-- MemoryManager::findFirstFitBlock. -/
def findFirstFitBlock (blocks : List MemoryBlock) (sz : Nat) : Int :=
  findFirstFitAux blocks 0 sz

/-- Loop of MemoryManager::findBestFitBlock, carrying the running
`(bestIndex, bestSize)` pair of the C++ loop. -/
def findBestFitAux (blocks : List MemoryBlock) (i : Nat) (sz : Nat)
    (best : Int × Nat) : Int × Nat :=
  match blocks with
  | [] => best
  | b :: rest =>
      if blockSuitable sz b ∧ b.size < best.2 then
        findBestFitAux rest (i + 1) sz ((i : Int), b.size)
      else
        findBestFitAux rest (i + 1) sz best

/-- MemoryManager::findBestFitBlock; `bestSize` starts at `SIZE_MAX`. -/
def findBestFitBlock (blocks : List MemoryBlock) (sz : Nat) : Int :=
  (findBestFitAux blocks 0 sz (-1, W64 - 1)).1

/-- Loop of MemoryManager::findWorstFitBlock, carrying the running
`(worstIndex, worstSize)` pair of the C++ loop. -/
def findWorstFitAux (blocks : List MemoryBlock) (i : Nat) (sz : Nat)
    (worst : Int × Nat) : Int × Nat :=
  match blocks with
  | [] => worst
  | b :: rest =>
      if blockSuitable sz b ∧ worst.2 < b.size then
        findWorstFitAux rest (i + 1) sz ((i : Int), b.size)
      else
        findWorstFitAux rest (i + 1) sz worst

/-- MemoryManager::findWorstFitBlock; `worstSize` starts at `0`. -/
def findWorstFitBlock (blocks : List MemoryBlock) (sz : Nat) : Int :=
  (findWorstFitAux blocks 0 sz (-1, 0)).1

/-- MemoryManager::mergeFreeBlocks: repeatedly merge adjacent free pairs,
left to right, staying on the same index after a merge. -/
def mergeFreeBlocks : List MemoryBlock → List MemoryBlock
  | [] => []
  | [b] => [b]
  | b1 :: b2 :: rest =>
      if b1.isFree ∧ b2.isFree then
        mergeFreeBlocks ({ b1 with size := add64 b1.size b2.size } :: rest)
      else
        b1 :: mergeFreeBlocks (b2 :: rest)
  termination_by l => l.length

/-- Clamping of the requested size to `[minMemPerProcess, maxMemPerProcess]`
at the top of allocateMemory (two successive `if`s, in source order). -/
def clampMemorySize (mm : MemoryManager) (memorySize : Nat) : Nat :=
  let m1 := if memorySize < mm.minMemPerProcess then mm.minMemPerProcess else memorySize
  if mm.maxMemPerProcess < m1 then mm.maxMemPerProcess else m1

/-- The `pagesNeeded` ceiling division
`(memorySize + memPerFrame - 1) / memPerFrame`, whose numerator is a
`size_t` expression (hence the explicit wrap). -/
def pagesNeededFor (memorySize memPerFrame : Nat) : Nat :=
  ((memorySize + memPerFrame - 1) % W64) / memPerFrame

/-- The scan in allocateMemory (paging) that collects frame numbers of free
frames in ascending order, breaking once the collected count reaches
`pagesNeeded`.  The break is tested after each push, so with
`pagesNeeded = 0` the loop still collects (up to) one frame; the collected
list is therefore the first `max pagesNeeded 1` free frame numbers. -/
def collectFreeFrames (frames : List MemoryFrame) (pagesNeeded : Nat) : List Nat :=
  (((frames.filter (fun f => f.isFree)).map (fun f => f.frameNumber)).take
    (max pagesNeeded 1))

/-- Size stored into the `i`-th allocated frame:
`(i == pagesNeeded - 1) ? (memorySize - i * memPerFrame) : memPerFrame`,
with the subtraction and multiplication performed in `size_t`. -/
def frameSizeFor (i pagesNeeded memorySize memPerFrame : Nat) : Nat :=
  if i = pagesNeeded - 1 then sub64 memorySize (mul64 i memPerFrame)
  else memPerFrame

/-- Field updates applied to a frame when it is allocated
(`frames[frameNum].isFree = false; ... .size = ...; ... .timestamp = ...`). -/
def markedFrame (pid : Int) (name : String) (sz now : Nat)
    (fr : MemoryFrame) : MemoryFrame :=
  { fr with isFree := false, processID := pid, processName := name,
            size := sz, timestamp := now }

/-- The frame-marking loop of allocateMemory (paging): the `i`-th chosen
frame number is written through `frames[frameNum]` with owner metadata and
its computed size. -/
def markFramesAux (frames : List MemoryFrame) (chosen : List Nat) (i : Nat)
    (pid : Int) (name : String) (pagesNeeded memorySize memPerFrame now : Nat) :
    List MemoryFrame :=
  match chosen with
  | [] => frames
  | c :: rest =>
      markFramesAux
        (listModify frames c
          (markedFrame pid name (frameSizeFor i pagesNeeded memorySize memPerFrame) now))
        rest (i + 1) pid name pagesNeeded memorySize memPerFrame now

/-- Frame marking starting at loop index 0. -/
def markFrames (frames : List MemoryFrame) (chosen : List Nat) (pid : Int)
    (name : String) (pagesNeeded memorySize memPerFrame now : Nat) :
    List MemoryFrame :=
  markFramesAux frames chosen 0 pid name pagesNeeded memorySize memPerFrame now

/-- Strategy dispatch of allocateMemory (flat branch): pick the block index
by the configured placement policy. -/
def policyFindBlock (mm : MemoryManager) (sz : Nat) : Int :=
  match mm.allocationStrategy with
  | AllocationStrategy.FIRST_FIT => findFirstFitBlock mm.blocks sz
  | AllocationStrategy.BEST_FIT => findBestFitBlock mm.blocks sz
  | AllocationStrategy.WORST_FIT => findWorstFitBlock mm.blocks sz

/-- MemoryManager::allocateMemory.  `now` stands for the `std::time`
values written into timestamps.  Returns the C++ boolean result together
with the updated manager. -/
def MemoryManager.allocateMemory (mm : MemoryManager) (processID : Int)
    (processName : String) (memorySize0 : Nat) (now : Nat) :
    Bool × MemoryManager :=
  if (mapFind? mm.processMemoryMap processID).isSome then
    (false, mm)
  else
    let memorySize := clampMemorySize mm memorySize0
    if mm.allocationType = AllocationType.PAGING then
      let pagesNeeded := pagesNeededFor memorySize mm.memPerFrame
      let freeFrames := collectFreeFrames mm.frames pagesNeeded
      if freeFrames.length < pagesNeeded then
        (false, { mm with allocationFailures := mm.allocationFailures + 1 })
      else
        let chosen := freeFrames.take pagesNeeded
        let memAllocated := mul64 pagesNeeded mm.memPerFrame
        let memInfo : ProcessMemoryInfo :=
          { processID := processID, processName := processName,
            memoryRequired := memorySize, memoryAllocated := memAllocated,
            frameNumbers := chosen, startAddress := 0, allocationTime := now,
            numPages := pagesNeeded }
        (true,
         { mm with
             frames := markFrames mm.frames chosen processID processName
                         pagesNeeded memorySize mm.memPerFrame now,
             totalAllocated := add64 mm.totalAllocated memAllocated,
             totalFree := sub64 mm.totalFree memAllocated,
             totalProcessesAllocated := mm.totalProcessesAllocated + 1,
             processMemoryMap := mm.processMemoryMap ++ [(processID, memInfo)] })
    else
      let blockIndex : Int := policyFindBlock mm memorySize
      if blockIndex = -1 then
        (false, { mm with allocationFailures := mm.allocationFailures + 1 })
      else
        match mm.blocks[blockIndex.toNat]? with
        | none =>
            -- unreachable: the find functions only return in-range indices
            (false, mm)
        | some block =>
            let blocks1 :=
              if memorySize < block.size then
                mm.blocks.take (blockIndex.toNat + 1) ++
                  [MemoryBlock.init (add64 block.startAddress memorySize)
                      (sub64 block.size memorySize)] ++
                  mm.blocks.drop (blockIndex.toNat + 1)
              else mm.blocks
            let blocks2 := listModify blocks1 blockIndex.toNat (fun b =>
              { b with size := memorySize, isFree := false,
                       processID := processID, processName := processName,
                       timestamp := now })
            let memInfo : ProcessMemoryInfo :=
              { processID := processID, processName := processName,
                memoryRequired := memorySize, memoryAllocated := memorySize,
                frameNumbers := [], startAddress := block.startAddress,
                allocationTime := now, numPages := 0 }
            (true,
             { mm with
                 blocks := blocks2,
                 totalAllocated := add64 mm.totalAllocated memorySize,
                 totalFree := sub64 mm.totalFree memorySize,
                 totalProcessesAllocated := mm.totalProcessesAllocated + 1,
                 processMemoryMap := mm.processMemoryMap ++ [(processID, memInfo)] })

/-- MemoryManager::writeFrameToBackingStore: appends a record for a
non-free, in-range frame in paging mode and counts a page-out; otherwise
does nothing (the negative-index C++ guard cannot fire for a `Nat`). -/
def MemoryManager.writeFrameToBackingStore (mm : MemoryManager)
    (frameNumber : Nat) : MemoryManager :=
  if mm.allocationType ≠ AllocationType.PAGING then mm
  else
    match mm.frames[frameNumber]? with
    | none => mm
    | some fr =>
        if fr.isFree then mm
        else
          { mm with
              backingStore := mm.backingStore ++
                [{ frameNumber := fr.frameNumber, processID := fr.processID,
                   processName := fr.processName, sizeKB := fr.size }],
              pagesPagedOut := mm.pagesPagedOut + 1 }

/-- Clearing of one frame in deallocateMemory: `isFree = true`,
`processID = -1`, `processName = ""`, `size = 0` (the timestamp is not
reset by the code). -/
def freeFrame (fr : MemoryFrame) : MemoryFrame :=
  { fr with isFree := true, processID := -1, processName := "", size := 0 }

/-- The per-frame loop of deallocateMemory (paging): write each owned
frame to the backing store, then clear it. -/
def freeFramesLoop (mm : MemoryManager) : List Nat → MemoryManager
  | [] => mm
  | n :: rest =>
      let mm1 := mm.writeFrameToBackingStore n
      freeFramesLoop { mm1 with frames := listModify mm1.frames n freeFrame } rest

/-- Flat-mode part of deallocateMemory: mark the first block owned by
`pid` free (size and timestamp are not reset), then stop. -/
def freeOwnedBlock : List MemoryBlock → Int → List MemoryBlock
  | [], _ => []
  | b :: rest, pid =>
      if b.processID = pid then
        ({ b with isFree := true, processID := -1, processName := "" }) :: rest
      else b :: freeOwnedBlock rest pid

/-- MemoryManager::deallocateMemory. -/
def MemoryManager.deallocateMemory (mm : MemoryManager) (processID : Int) :
    Bool × MemoryManager :=
  match mapFind? mm.processMemoryMap processID with
  | none => (false, mm)
  | some memInfo =>
      let mm1 :=
        if mm.allocationType = AllocationType.PAGING then
          freeFramesLoop mm memInfo.frameNumbers
        else
          { mm with blocks := mergeFreeBlocks (freeOwnedBlock mm.blocks processID) }
      (true,
       { mm1 with
           totalAllocated := sub64 mm1.totalAllocated memInfo.memoryAllocated,
           totalFree := add64 mm1.totalFree memInfo.memoryAllocated,
           totalProcessesAllocated := mm1.totalProcessesAllocated - 1,
           processMemoryMap := mapErase mm1.processMemoryMap processID })

/-- Frame numbers of the currently free frames (the "set of free frames";
frame order in the vector never changes). -/
def freeFrameNumbers (mm : MemoryManager) : List Nat :=
  (mm.frames.filter (fun f => f.isFree)).map (fun f => f.frameNumber)

/-- Sum of `frame.size` over all non-free frames. -/
def nonFreeSizeSum (frames : List MemoryFrame) : Nat :=
  (frames.map (fun f => if f.isFree then 0 else f.size)).sum

/-! ## Specifications of the placement policies (claims C7, C8) -/

theorem findFirstFitAux_eq_neg_one_iff (blocks : List MemoryBlock) (i sz : Nat) :
    findFirstFitAux blocks i sz = -1 ↔ ∀ b ∈ blocks, ¬ blockSuitable sz b := by
  induction blocks generalizing i with
  | nil => simp [findFirstFitAux]
  | cons b rest ih =>
      by_cases hb : blockSuitable sz b
      · simp only [findFirstFitAux, if_pos hb]
        constructor
        · intro h; exfalso; omega
        · intro h; exact absurd hb (h b (List.mem_cons_self b rest))
      · simp only [findFirstFitAux, if_neg hb, ih]
        constructor
        · intro h c hc
          rcases List.mem_cons.mp hc with rfl | hc
          · exact hb
          · exact h c hc
        · intro h c hc; exact h c (List.mem_cons_of_mem b hc)

theorem findFirstFitAux_found (blocks : List MemoryBlock) (i sz : Nat)
    (h : findFirstFitAux blocks i sz ≠ -1) :
    ∃ j, ∃ hj : j < blocks.length,
      findFirstFitAux blocks i sz = ((i + j : Nat) : Int) ∧
      blockSuitable sz (blocks.get ⟨j, hj⟩) ∧
      ∀ k, ∀ hk : k < blocks.length, k < j → ¬ blockSuitable sz (blocks.get ⟨k, hk⟩) := by
  induction blocks generalizing i with
  | nil => exact absurd rfl h
  | cons b rest ih =>
      by_cases hb : blockSuitable sz b
      · refine ⟨0, by simp, ?_, ?_, ?_⟩
        · simp [findFirstFitAux, if_pos hb]
        · simpa using hb
        · intro k hk hk0; omega
      · have h2 : findFirstFitAux rest (i + 1) sz ≠ -1 := by
          simpa [findFirstFitAux, if_neg hb] using h
        obtain ⟨j, hj, heq, hsuit, hmin⟩ := ih (i + 1) h2
        refine ⟨j + 1, by simpa using Nat.succ_lt_succ hj, ?_, ?_, ?_⟩
        · simp only [findFirstFitAux, if_neg hb]
          rw [heq]; congr 1; omega
        · simpa using hsuit
        · intro k hk hkj
          match k, hk with
          | 0, hk => simpa using hb
          | k + 1, hk =>
              have := hmin k (by simpa using Nat.lt_of_succ_lt_succ hk) (by omega)
              simpa using this

theorem findBestFitAux_snd_le (blocks : List MemoryBlock) (i sz : Nat)
    (best : Int × Nat) : (findBestFitAux blocks i sz best).2 ≤ best.2 := by
  induction blocks generalizing i best with
  | nil => simp [findBestFitAux]
  | cons b rest ih =>
      by_cases hb : blockSuitable sz b ∧ b.size < best.2
      · simp only [findBestFitAux, if_pos hb]
        exact le_trans (ih (i + 1) ((i : Int), b.size)) (le_of_lt hb.2)
      · simp only [findBestFitAux, if_neg hb]
        exact ih (i + 1) best

theorem findBestFitAux_found (blocks : List MemoryBlock) (i sz : Nat)
    (best : Int × Nat) :
    findBestFitAux blocks i sz best = best ∨
      ∃ j, ∃ hj : j < blocks.length,
        (findBestFitAux blocks i sz best).1 = ((i + j : Nat) : Int) ∧
        (findBestFitAux blocks i sz best).2 = (blocks.get ⟨j, hj⟩).size ∧
        blockSuitable sz (blocks.get ⟨j, hj⟩) := by
  induction blocks generalizing i best with
  | nil => left; simp [findBestFitAux]
  | cons b rest ih =>
      by_cases hb : blockSuitable sz b ∧ b.size < best.2
      · right
        rcases ih (i + 1) ((i : Int), b.size) with heq | ⟨j, hj, h1, h2, h3⟩
        · refine ⟨0, by simp, ?_, ?_, ?_⟩
          · simp [findBestFitAux, if_pos hb, heq]
          · simp [findBestFitAux, if_pos hb, heq]
          · simpa using hb.1
        · refine ⟨j + 1, by simpa using Nat.succ_lt_succ hj, ?_, ?_, ?_⟩
          · simp only [findBestFitAux, if_pos hb]
            rw [h1]; congr 1; omega
          · simp only [findBestFitAux, if_pos hb]
            rw [h2]; rfl
          · simpa using h3
      · rcases ih (i + 1) best with heq | ⟨j, hj, h1, h2, h3⟩
        · left; simpa [findBestFitAux, if_neg hb] using heq
        · right
          refine ⟨j + 1, by simpa using Nat.succ_lt_succ hj, ?_, ?_, ?_⟩
          · simp only [findBestFitAux, if_neg hb]
            rw [h1]; congr 1; omega
          · simp only [findBestFitAux, if_neg hb]
            rw [h2]; rfl
          · simpa using h3

theorem findBestFitAux_min (blocks : List MemoryBlock) (i sz : Nat)
    (best : Int × Nat) :
    ∀ c ∈ blocks, blockSuitable sz c → c.size < best.2 →
      (findBestFitAux blocks i sz best).2 ≤ c.size := by
  induction blocks generalizing i best with
  | nil => intro c hc; simp at hc
  | cons b rest ih =>
      intro c hc hsuit hlt
      rcases List.mem_cons.mp hc with rfl | hc
      · have hb : blockSuitable sz c ∧ c.size < best.2 := ⟨hsuit, hlt⟩
        simp only [findBestFitAux, if_pos hb]
        exact findBestFitAux_snd_le rest (i + 1) sz ((i : Int), c.size)
      · by_cases hb : blockSuitable sz b ∧ b.size < best.2
        · simp only [findBestFitAux, if_pos hb]
          rcases lt_or_le c.size b.size with hcmp | hcmp
          · exact ih (i + 1) ((i : Int), b.size) c hc hsuit hcmp
          · exact le_trans (findBestFitAux_snd_le rest (i + 1) sz ((i : Int), b.size)) hcmp
        · simp only [findBestFitAux, if_neg hb]
          exact ih (i + 1) best c hc hsuit hlt

theorem findBestFitAux_no_improve (blocks : List MemoryBlock) (i sz : Nat)
    (best : Int × Nat)
    (h : ∀ b ∈ blocks, ¬ (blockSuitable sz b ∧ b.size < best.2)) :
    findBestFitAux blocks i sz best = best := by
  induction blocks generalizing i with
  | nil => simp [findBestFitAux]
  | cons b rest ih =>
      have hb := h b (List.mem_cons_self b rest)
      simp only [findBestFitAux, if_neg hb]
      exact ih (i + 1) (fun c hc => h c (List.mem_cons_of_mem b hc))

theorem findWorstFitAux_no_improve (blocks : List MemoryBlock) (i sz : Nat)
    (worst : Int × Nat)
    (h : ∀ b ∈ blocks, ¬ (blockSuitable sz b ∧ worst.2 < b.size)) :
    findWorstFitAux blocks i sz worst = worst := by
  induction blocks generalizing i with
  | nil => simp [findWorstFitAux]
  | cons b rest ih =>
      have hb := h b (List.mem_cons_self b rest)
      simp only [findWorstFitAux, if_neg hb]
      exact ih (i + 1) (fun c hc => h c (List.mem_cons_of_mem b hc))

theorem findBestFitAux_fst_nonneg (blocks : List MemoryBlock) (i sz : Nat)
    (best : Int × Nat) (h : 0 ≤ best.1) :
    0 ≤ (findBestFitAux blocks i sz best).1 := by
  induction blocks generalizing i best with
  | nil => simpa [findBestFitAux] using h
  | cons b rest ih =>
      by_cases hb : blockSuitable sz b ∧ b.size < best.2
      · simp only [findBestFitAux, if_pos hb]
        exact ih (i + 1) ((i : Int), b.size) (by simp)
      · simp only [findBestFitAux, if_neg hb]
        exact ih (i + 1) best h

theorem findBestFitAux_eq_neg_one (blocks : List MemoryBlock) (i sz : Nat)
    (best : Int × Nat) (h : (findBestFitAux blocks i sz best).1 = -1) :
    ∀ b ∈ blocks, ¬ (blockSuitable sz b ∧ b.size < best.2) := by
  induction blocks generalizing i best with
  | nil => simp
  | cons b rest ih =>
      by_cases hb : blockSuitable sz b ∧ b.size < best.2
      · exfalso
        simp only [findBestFitAux, if_pos hb] at h
        have := findBestFitAux_fst_nonneg rest (i + 1) sz ((i : Int), b.size)
          (by simp)
        omega
      · simp only [findBestFitAux, if_neg hb] at h
        intro c hc
        rcases List.mem_cons.mp hc with rfl | hc
        · exact hb
        · exact ih (i + 1) best h c hc

theorem findWorstFitAux_snd_ge (blocks : List MemoryBlock) (i sz : Nat)
    (worst : Int × Nat) : worst.2 ≤ (findWorstFitAux blocks i sz worst).2 := by
  induction blocks generalizing i worst with
  | nil => simp [findWorstFitAux]
  | cons b rest ih =>
      by_cases hb : blockSuitable sz b ∧ worst.2 < b.size
      · simp only [findWorstFitAux, if_pos hb]
        exact le_trans (le_of_lt hb.2) (ih (i + 1) ((i : Int), b.size))
      · simp only [findWorstFitAux, if_neg hb]
        exact ih (i + 1) worst

theorem findWorstFitAux_found (blocks : List MemoryBlock) (i sz : Nat)
    (worst : Int × Nat) :
    findWorstFitAux blocks i sz worst = worst ∨
      ∃ j, ∃ hj : j < blocks.length,
        (findWorstFitAux blocks i sz worst).1 = ((i + j : Nat) : Int) ∧
        (findWorstFitAux blocks i sz worst).2 = (blocks.get ⟨j, hj⟩).size ∧
        blockSuitable sz (blocks.get ⟨j, hj⟩) := by
  induction blocks generalizing i worst with
  | nil => left; simp [findWorstFitAux]
  | cons b rest ih =>
      by_cases hb : blockSuitable sz b ∧ worst.2 < b.size
      · right
        rcases ih (i + 1) ((i : Int), b.size) with heq | ⟨j, hj, h1, h2, h3⟩
        · refine ⟨0, by simp, ?_, ?_, ?_⟩
          · simp [findWorstFitAux, if_pos hb, heq]
          · simp [findWorstFitAux, if_pos hb, heq]
          · simpa using hb.1
        · refine ⟨j + 1, by simpa using Nat.succ_lt_succ hj, ?_, ?_, ?_⟩
          · simp only [findWorstFitAux, if_pos hb]
            rw [h1]; congr 1; omega
          · simp only [findWorstFitAux, if_pos hb]
            rw [h2]; rfl
          · simpa using h3
      · rcases ih (i + 1) worst with heq | ⟨j, hj, h1, h2, h3⟩
        · left; simpa [findWorstFitAux, if_neg hb] using heq
        · right
          refine ⟨j + 1, by simpa using Nat.succ_lt_succ hj, ?_, ?_, ?_⟩
          · simp only [findWorstFitAux, if_neg hb]
            rw [h1]; congr 1; omega
          · simp only [findWorstFitAux, if_neg hb]
            rw [h2]; rfl
          · simpa using h3

theorem findWorstFitAux_max (blocks : List MemoryBlock) (i sz : Nat)
    (worst : Int × Nat) :
    ∀ c ∈ blocks, blockSuitable sz c → worst.2 < c.size →
      c.size ≤ (findWorstFitAux blocks i sz worst).2 := by
  induction blocks generalizing i worst with
  | nil => intro c hc; simp at hc
  | cons b rest ih =>
      intro c hc hsuit hlt
      rcases List.mem_cons.mp hc with rfl | hc
      · have hb : blockSuitable sz c ∧ worst.2 < c.size := ⟨hsuit, hlt⟩
        simp only [findWorstFitAux, if_pos hb]
        exact findWorstFitAux_snd_ge rest (i + 1) sz ((i : Int), c.size)
      · by_cases hb : blockSuitable sz b ∧ worst.2 < b.size
        · simp only [findWorstFitAux, if_pos hb]
          rcases lt_or_le b.size c.size with hcmp | hcmp
          · exact ih (i + 1) ((i : Int), b.size) c hc hsuit hcmp
          · exact le_trans hcmp (findWorstFitAux_snd_ge rest (i + 1) sz ((i : Int), b.size))
        · simp only [findWorstFitAux, if_neg hb]
          exact ih (i + 1) worst c hc hsuit hlt

theorem findWorstFitAux_fst_nonneg (blocks : List MemoryBlock) (i sz : Nat)
    (worst : Int × Nat) (h : 0 ≤ worst.1) :
    0 ≤ (findWorstFitAux blocks i sz worst).1 := by
  induction blocks generalizing i worst with
  | nil => simpa [findWorstFitAux] using h
  | cons b rest ih =>
      by_cases hb : blockSuitable sz b ∧ worst.2 < b.size
      · simp only [findWorstFitAux, if_pos hb]
        exact ih (i + 1) ((i : Int), b.size) (by simp)
      · simp only [findWorstFitAux, if_neg hb]
        exact ih (i + 1) worst h

theorem findWorstFitAux_eq_neg_one (blocks : List MemoryBlock) (i sz : Nat)
    (worst : Int × Nat) (h : (findWorstFitAux blocks i sz worst).1 = -1) :
    ∀ b ∈ blocks, ¬ (blockSuitable sz b ∧ worst.2 < b.size) := by
  induction blocks generalizing i worst with
  | nil => simp
  | cons b rest ih =>
      by_cases hb : blockSuitable sz b ∧ worst.2 < b.size
      · exfalso
        simp only [findWorstFitAux, if_pos hb] at h
        have := findWorstFitAux_fst_nonneg rest (i + 1) sz ((i : Int), b.size)
          (by simp)
        omega
      · simp only [findWorstFitAux, if_neg hb] at h
        intro c hc
        rcases List.mem_cons.mp hc with rfl | hc
        · exact hb
        · exact ih (i + 1) worst h c hc

/-! ## List access helper lemmas -/

theorem listModify_length {α : Type} (l : List α) (n : Nat) (f : α → α) :
    (listModify l n f).length = l.length := by
  induction l generalizing n with
  | nil => rfl
  | cons a rest ih =>
      match n with
      | 0 => rfl
      | n + 1 => simpa [listModify] using ih n

theorem listModify_getElem_self {α : Type} (l : List α) (n : Nat) (f : α → α) :
    (listModify l n f)[n]? = (l[n]?).map f := by
  induction l generalizing n with
  | nil => simp [listModify]
  | cons a rest ih =>
      match n with
      | 0 => simp [listModify]
      | n + 1 => simpa [listModify] using ih n

theorem listModify_getElem_ne {α : Type} (l : List α) (n m : Nat) (f : α → α)
    (h : m ≠ n) : (listModify l n f)[m]? = l[m]? := by
  induction l generalizing n m with
  | nil => simp [listModify]
  | cons a rest ih =>
      match n, m with
      | 0, 0 => exact absurd rfl h
      | 0, m + 1 => simp [listModify]
      | n + 1, 0 => simp [listModify]
      | n + 1, m + 1 => simpa [listModify] using ih n m (by omega)

/-! ## Claim C8: contiguous-mode placement policies -/

/-- C8: in contiguous (flat) mode allocation picks the free block dictated
by the configured policy.  FirstFit returns the lowest-index free block of
sufficient size; BestFit a smallest sufficient free block; WorstFit a
largest sufficient free block; each returns -1 exactly when no sufficient
free block exists, and `allocateMemory` then returns false and increments
the failure counter.  (The hypotheses `1 ≤ sz` and `b.size < SIZE_MAX`
rule out two unreachable edge cases of the C++ accumulator
initialisations: a zero-size request, impossible because requests are
clamped to the validated `min-mem-per-proc ≥ 1`, and a block of size
exactly `SIZE_MAX`, impossible inside a memory of `size_t` size.) -/
theorem flat_allocation_follows_policy
    (blocks : List MemoryBlock) (sz : Nat) (mm : MemoryManager) (pid : Int)
    (name : String) (req now : Nat)
    (hszpos : 1 ≤ sz)
    (hnomax : ∀ b ∈ blocks, b.size < W64 - 1) :
    ((findFirstFitBlock blocks sz = -1 ↔ ∀ b ∈ blocks, ¬ blockSuitable sz b) ∧
      (findFirstFitBlock blocks sz ≠ -1 →
        ∃ j, ∃ hj : j < blocks.length,
          findFirstFitBlock blocks sz = (j : Int) ∧
          blockSuitable sz (blocks.get ⟨j, hj⟩) ∧
          ∀ k, ∀ hk : k < blocks.length, k < j →
            ¬ blockSuitable sz (blocks.get ⟨k, hk⟩))) ∧
    ((findBestFitBlock blocks sz = -1 ↔ ∀ b ∈ blocks, ¬ blockSuitable sz b) ∧
      (findBestFitBlock blocks sz ≠ -1 →
        ∃ j, ∃ hj : j < blocks.length,
          findBestFitBlock blocks sz = (j : Int) ∧
          blockSuitable sz (blocks.get ⟨j, hj⟩) ∧
          ∀ c ∈ blocks, blockSuitable sz c →
            (blocks.get ⟨j, hj⟩).size ≤ c.size)) ∧
    ((findWorstFitBlock blocks sz = -1 ↔ ∀ b ∈ blocks, ¬ blockSuitable sz b) ∧
      (findWorstFitBlock blocks sz ≠ -1 →
        ∃ j, ∃ hj : j < blocks.length,
          findWorstFitBlock blocks sz = (j : Int) ∧
          blockSuitable sz (blocks.get ⟨j, hj⟩) ∧
          ∀ c ∈ blocks, blockSuitable sz c →
            c.size ≤ (blocks.get ⟨j, hj⟩).size)) ∧
    (mm.allocationType = AllocationType.FLAT →
      mapFind? mm.processMemoryMap pid = none →
      (∀ b ∈ mm.blocks, ¬ blockSuitable (clampMemorySize mm req) b) →
      mm.allocateMemory pid name req now =
        (false, { mm with allocationFailures := mm.allocationFailures + 1 })) := by
  refine ⟨⟨?_, ?_⟩, ⟨?_, ?_⟩, ⟨?_, ?_⟩, ?_⟩
  · exact findFirstFitAux_eq_neg_one_iff blocks 0 sz
  · intro h
    obtain ⟨j, hj, heq, hsuit, hmin⟩ := findFirstFitAux_found blocks 0 sz h
    exact ⟨j, hj, by simpa using heq, hsuit, hmin⟩
  · constructor
    · intro h b hb hsuit
      exact findBestFitAux_eq_neg_one blocks 0 sz (-1, W64 - 1) h b hb
        ⟨hsuit, hnomax b hb⟩
    · intro h
      show (findBestFitAux blocks 0 sz (-1, W64 - 1)).1 = -1
      rw [findBestFitAux_no_improve blocks 0 sz (-1, W64 - 1)
        (fun b hb hcon => h b hb hcon.1)]
  · intro h
    rcases findBestFitAux_found blocks 0 sz (-1, W64 - 1) with heq | ⟨j, hj, h1, h2, h3⟩
    · exfalso
      apply h
      show (findBestFitAux blocks 0 sz (-1, W64 - 1)).1 = -1
      rw [heq]
    · refine ⟨j, hj, by simpa using h1, h3, ?_⟩
      intro c hc hsuit
      calc (blocks.get ⟨j, hj⟩).size
          = (findBestFitAux blocks 0 sz (-1, W64 - 1)).2 := h2.symm
        _ ≤ c.size :=
            findBestFitAux_min blocks 0 sz (-1, W64 - 1) c hc hsuit (hnomax c hc)
  · constructor
    · intro h b hb hsuit
      refine findWorstFitAux_eq_neg_one blocks 0 sz (-1, 0) h b hb ⟨hsuit, ?_⟩
      have := hsuit.2
      omega
    · intro h
      show (findWorstFitAux blocks 0 sz (-1, 0)).1 = -1
      rw [findWorstFitAux_no_improve blocks 0 sz (-1, 0)
        (fun b hb hcon => h b hb hcon.1)]
  · intro h
    rcases findWorstFitAux_found blocks 0 sz (-1, 0) with heq | ⟨j, hj, h1, h2, h3⟩
    · exfalso
      apply h
      show (findWorstFitAux blocks 0 sz (-1, 0)).1 = -1
      rw [heq]
    · refine ⟨j, hj, by simpa using h1, h3, ?_⟩
      intro c hc hsuit
      calc c.size
          ≤ (findWorstFitAux blocks 0 sz (-1, 0)).2 :=
            findWorstFitAux_max blocks 0 sz (-1, 0) c hc hsuit
              (by have := hsuit.2; omega)
        _ = (blocks.get ⟨j, hj⟩).size := h2
  · intro hflat hdup hnosuit
    have hfind : policyFindBlock mm (clampMemorySize mm req) = -1 := by
      unfold policyFindBlock
      cases hstrat : mm.allocationStrategy with
      | FIRST_FIT =>
          exact (findFirstFitAux_eq_neg_one_iff mm.blocks 0 _).mpr hnosuit
      | BEST_FIT =>
          show (findBestFitAux mm.blocks 0 _ (-1, W64 - 1)).1 = -1
          rw [findBestFitAux_no_improve mm.blocks 0 _ (-1, W64 - 1)
            (fun b hb hcon => hnosuit b hb hcon.1)]
      | WORST_FIT =>
          show (findWorstFitAux mm.blocks 0 _ (-1, 0)).1 = -1
          rw [findWorstFitAux_no_improve mm.blocks 0 _ (-1, 0)
            (fun b hb hcon => hnosuit b hb hcon.1)]
    have htype : ¬ mm.allocationType = AllocationType.PAGING := by
      rw [hflat]
      intro hcon
      exact AllocationType.noConfusion hcon
    simp only [MemoryManager.allocateMemory, hdup, Option.isSome_none,
      Bool.false_eq_true, if_false, htype, hfind, if_true, if_neg,
      not_false_eq_true]

/-- Witness manager for the C8 failure case: a flat manager whose only
block is occupied, so no request can be satisfied. -/
def c8WitnessMM : MemoryManager :=
  { MemoryManager.create 100 16 16 100 AllocationType.FLAT
      AllocationStrategy.WORST_FIT with
    blocks := [{ MemoryBlock.init 0 100 with isFree := false, processID := 9 }] }

theorem flat_allocation_follows_policy_witness :
    c8WitnessMM.allocateMemory 5 "w" 200 0 =
      (false, { c8WitnessMM with
                  allocationFailures := c8WitnessMM.allocationFailures + 1 }) :=
  (flat_allocation_follows_policy c8WitnessMM.blocks 25 c8WitnessMM 5 "w" 200 0
    (by decide) (by decide)).2.2.2 (by decide) (by decide) (by decide)

/-! ## Claim C7: allocateMemory failure semantics -/

theorem policyFindBlock_found (mm : MemoryManager) (sz : Nat)
    (h : policyFindBlock mm sz ≠ -1) :
    ∃ j, ∃ hj : j < mm.blocks.length, policyFindBlock mm sz = (j : Int) := by
  unfold policyFindBlock at h ⊢
  cases hstrat : mm.allocationStrategy with
  | FIRST_FIT =>
      rw [hstrat] at h
      obtain ⟨j, hj, heq, -, -⟩ := findFirstFitAux_found mm.blocks 0 sz h
      exact ⟨j, hj, by simpa using heq⟩
  | BEST_FIT =>
      rw [hstrat] at h
      rcases findBestFitAux_found mm.blocks 0 sz (-1, W64 - 1) with heq | ⟨j, hj, h1, -, -⟩
      · exfalso
        apply h
        show (findBestFitAux mm.blocks 0 sz (-1, W64 - 1)).1 = -1
        rw [heq]
      · exact ⟨j, hj, by simpa using h1⟩
  | WORST_FIT =>
      rw [hstrat] at h
      rcases findWorstFitAux_found mm.blocks 0 sz (-1, 0) with heq | ⟨j, hj, h1, -, -⟩
      · exfalso
        apply h
        show (findWorstFitAux mm.blocks 0 sz (-1, 0)).1 = -1
        rw [heq]
      · exact ⟨j, hj, by simpa using h1⟩

/-- C7: allocateMemory never unwinds: with a pid that already has a record
it returns false with the manager unchanged (silent failure), and in every
other failure case (memory exhaustion, in either mode) the failure counter
is the only mutation. -/
theorem allocate_failure_semantics (mm : MemoryManager) (pid : Int)
    (name : String) (sz now : Nat) :
    ((mapFind? mm.processMemoryMap pid).isSome = true →
        mm.allocateMemory pid name sz now = (false, mm)) ∧
    ((mm.allocateMemory pid name sz now).1 = false →
      ((mapFind? mm.processMemoryMap pid).isSome = true ∧
        (mm.allocateMemory pid name sz now).2 = mm) ∨
      (mapFind? mm.processMemoryMap pid = none ∧
        (mm.allocateMemory pid name sz now).2 =
          { mm with allocationFailures := mm.allocationFailures + 1 })) := by
  constructor
  · intro h
    simp [MemoryManager.allocateMemory, h]
  · intro h
    by_cases hdup : (mapFind? mm.processMemoryMap pid).isSome = true
    · left
      exact ⟨hdup, by simp [MemoryManager.allocateMemory, hdup]⟩
    · right
      have hnone : mapFind? mm.processMemoryMap pid = none := by
        cases hmf : mapFind? mm.processMemoryMap pid
        · rfl
        · rw [hmf] at hdup
          exact absurd rfl hdup
      refine ⟨hnone, ?_⟩
      by_cases htype : mm.allocationType = AllocationType.PAGING
      · by_cases hex :
            (collectFreeFrames mm.frames
              (pagesNeededFor (clampMemorySize mm sz) mm.memPerFrame)).length <
            pagesNeededFor (clampMemorySize mm sz) mm.memPerFrame
        · simp [MemoryManager.allocateMemory, hnone, htype, hex]
        · exfalso
          simp [MemoryManager.allocateMemory, hnone, htype, hex] at h
      · by_cases hfind : policyFindBlock mm (clampMemorySize mm sz) = -1
        · simp [MemoryManager.allocateMemory, hnone, htype, hfind]
        · exfalso
          obtain ⟨j, hj, hjeq⟩ := policyFindBlock_found mm (clampMemorySize mm sz) hfind
          have hsome : mm.blocks[(policyFindBlock mm (clampMemorySize mm sz)).toNat]? =
              some (mm.blocks.get ⟨j, hj⟩) := by
            rw [hjeq]
            simp [List.getElem?_eq_getElem hj]
          simp [MemoryManager.allocateMemory, hnone, htype, hfind, hsome] at h

/-- Witness manager for C7: a paged manager in which pid 1 already has a
record, so a second allocation for pid 1 fails silently. -/
def c7WitnessMM : MemoryManager :=
  ((MemoryManager.create 64 16 16 64 AllocationType.PAGING
      AllocationStrategy.FIRST_FIT).allocateMemory 1 "p" 32 0).2

theorem allocate_failure_semantics_witness :
    c7WitnessMM.allocateMemory 1 "q" 32 0 = (false, c7WitnessMM) :=
  (allocate_failure_semantics c7WitnessMM 1 "q" 32 0).1 (by decide)

/-! ## Wrapping-arithmetic cancellation lemmas -/

theorem sub64_add64_cancel (a b : Nat) : sub64 (add64 a b) b = a % W64 := by
  unfold sub64 add64 W64
  omega

theorem add64_sub64_cancel (a b : Nat) : add64 (sub64 a b) b = a % W64 := by
  unfold sub64 add64 W64
  omega

theorem sub64_of_le (a b : Nat) (h1 : b ≤ a) (h2 : a < W64) : sub64 a b = a - b := by
  unfold W64 at h2
  unfold sub64 W64
  omega

theorem add64_of_lt (a b : Nat) (h : a + b < W64) : add64 a b = a + b := by
  unfold W64 at h
  unfold add64 W64
  omega

/-! ## Frame bookkeeping lemmas (claims C4, C1) -/

/-- In every manager the program builds, the frame at vector position `i`
carries frame number `i` (established by `initializePaging`, never changed
afterwards). -/
def FramesWellNumbered (frames : List MemoryFrame) : Prop :=
  ∀ i, ∀ h : i < frames.length, (frames.get ⟨i, h⟩).frameNumber = i

/-- Pages needed for a request after clamping. -/
def pagesFor (mm : MemoryManager) (sz : Nat) : Nat :=
  pagesNeededFor (clampMemorySize mm sz) mm.memPerFrame

/-- The frame numbers allocateMemory assigns for a request. -/
def chosenFrames (mm : MemoryManager) (sz : Nat) : List Nat :=
  (collectFreeFrames mm.frames (pagesFor mm sz)).take (pagesFor mm sz)

/-- The process-memory record inserted by a successful paged allocation. -/
def pagingMemInfo (mm : MemoryManager) (pid : Int) (name : String)
    (sz now : Nat) : ProcessMemoryInfo :=
  { processID := pid, processName := name,
    memoryRequired := clampMemorySize mm sz,
    memoryAllocated := mul64 (pagesFor mm sz) mm.memPerFrame,
    frameNumbers := chosenFrames mm sz, startAddress := 0,
    allocationTime := now, numPages := pagesFor mm sz }

theorem framesWellNumbered_map_eq_range (frames : List MemoryFrame)
    (hwn : FramesWellNumbered frames) :
    frames.map (fun f => f.frameNumber) = List.range frames.length := by
  apply List.ext_get
  · simp
  · intro i h1 h2
    simp only [List.get_map, List.get_range]
    exact hwn i (by simpa using h1)

theorem chosenFrames_sub (mm : MemoryManager) (sz : Nat) :
    List.Sublist (chosenFrames mm sz)
      ((mm.frames.filter (fun f => f.isFree)).map (fun f => f.frameNumber)) := by
  unfold chosenFrames collectFreeFrames
  exact List.Sublist.trans (List.take_sublist _ _) (List.take_sublist _ _)

theorem chosenFrames_mem (mm : MemoryManager) (sz : Nat)
    (hwn : FramesWellNumbered mm.frames) :
    ∀ c ∈ chosenFrames mm sz,
      ∃ h : c < mm.frames.length, (mm.frames.get ⟨c, h⟩).isFree = true := by
  intro c hc
  have hc2 := (chosenFrames_sub mm sz).mem hc
  obtain ⟨f, hfmem, hfnum⟩ := List.mem_map.mp hc2
  have hfree : f.isFree = true := (List.mem_filter.mp hfmem).2
  have hfin : f ∈ mm.frames := (List.mem_filter.mp hfmem).1
  obtain ⟨⟨i, hi⟩, hget⟩ := List.mem_iff_get.mp hfin
  have hci : c = i := by
    rw [← hfnum, ← hget]
    exact hwn i hi
  subst hci
  exact ⟨hi, by rw [hget]; exact hfree⟩

theorem chosenFrames_nodup (mm : MemoryManager) (sz : Nat)
    (hwn : FramesWellNumbered mm.frames) : (chosenFrames mm sz).Nodup := by
  have h1 : List.Sublist
      ((mm.frames.filter (fun f => f.isFree)).map (fun f => f.frameNumber))
      (mm.frames.map (fun f => f.frameNumber)) :=
    List.Sublist.map (fun f => f.frameNumber) (List.filter_sublist mm.frames)
  have h2 : (mm.frames.map (fun f => f.frameNumber)).Nodup := by
    rw [framesWellNumbered_map_eq_range mm.frames hwn]
    exact List.nodup_range _
  exact List.Nodup.sublist (List.Sublist.trans (chosenFrames_sub mm sz) h1) h2

theorem chosenFrames_length (mm : MemoryManager) (sz : Nat)
    (hex : ¬ ((collectFreeFrames mm.frames (pagesFor mm sz)).length < pagesFor mm sz)) :
    (chosenFrames mm sz).length = pagesFor mm sz := by
  unfold chosenFrames
  rw [List.length_take]
  omega

/-! Effect of the marking loop, position by position. -/

theorem markFramesAux_length (frames : List MemoryFrame) (chosen : List Nat)
    (i : Nat) (pid : Int) (name : String) (pages m f now : Nat) :
    (markFramesAux frames chosen i pid name pages m f now).length = frames.length := by
  induction chosen generalizing frames i with
  | nil => rfl
  | cons c rest ih =>
      simp only [markFramesAux]
      rw [ih, listModify_length]

theorem markFramesAux_getElem_not_mem (frames : List MemoryFrame)
    (chosen : List Nat) (i : Nat) (pid : Int) (name : String)
    (pages m f now : Nat) (n : Nat) (hn : n ∉ chosen) :
    (markFramesAux frames chosen i pid name pages m f now)[n]? = frames[n]? := by
  induction chosen generalizing frames i with
  | nil => rfl
  | cons c rest ih =>
      simp only [markFramesAux]
      rw [ih _ _ (fun h => hn (List.mem_cons_of_mem c h)),
        listModify_getElem_ne _ _ _ _
          (fun h => hn (by rw [h]; exact List.mem_cons_self c rest))]

theorem markFramesAux_getElem_mem (frames : List MemoryFrame)
    (chosen : List Nat) (i : Nat) (pid : Int) (name : String)
    (pages m f now : Nat) (hnd : chosen.Nodup) (n : Nat) (hn : n ∈ chosen) :
    ∃ k, ∃ hk : k < chosen.length, chosen.get ⟨k, hk⟩ = n ∧
      (markFramesAux frames chosen i pid name pages m f now)[n]? =
        (frames[n]?).map
          (markedFrame pid name (frameSizeFor (i + k) pages m f) now) := by
  induction chosen generalizing frames i with
  | nil => simp at hn
  | cons c rest ih =>
      rcases List.mem_cons.mp hn with rfl | hn2
      · have hnotrest : n ∉ rest := (List.nodup_cons.mp hnd).1
        refine ⟨0, by simp, rfl, ?_⟩
        simp only [markFramesAux]
        rw [markFramesAux_getElem_not_mem _ _ _ _ _ _ _ _ _ _ hnotrest,
          listModify_getElem_self]
        simp
      · have hne : n ≠ c := by
          intro h
          exact (List.nodup_cons.mp hnd).1 (by rw [← h]; exact hn2)
        obtain ⟨k, hk, hkeq, hval⟩ :=
          ih (listModify frames c
              (markedFrame pid name (frameSizeFor i pages m f) now))
            (i + 1) (List.nodup_cons.mp hnd).2 hn2
        refine ⟨k + 1, by simpa using Nat.succ_lt_succ hk, by simpa using hkeq, ?_⟩
        simp only [markFramesAux]
        rw [hval, listModify_getElem_ne _ _ _ _ hne]
        have : i + 1 + k = i + (k + 1) := by omega
        rw [this]

/-! Effect of the deallocation loop. -/

theorem writeFrameToBackingStore_fields (mm : MemoryManager) (n : Nat) :
    (mm.writeFrameToBackingStore n).frames = mm.frames ∧
    (mm.writeFrameToBackingStore n).totalAllocated = mm.totalAllocated ∧
    (mm.writeFrameToBackingStore n).totalFree = mm.totalFree ∧
    (mm.writeFrameToBackingStore n).totalProcessesAllocated = mm.totalProcessesAllocated ∧
    (mm.writeFrameToBackingStore n).processMemoryMap = mm.processMemoryMap ∧
    (mm.writeFrameToBackingStore n).allocationType = mm.allocationType ∧
    (mm.writeFrameToBackingStore n).blocks = mm.blocks ∧
    (mm.writeFrameToBackingStore n).maxMemorySize = mm.maxMemorySize ∧
    (mm.writeFrameToBackingStore n).memPerFrame = mm.memPerFrame ∧
    (mm.writeFrameToBackingStore n).minMemPerProcess = mm.minMemPerProcess ∧
    (mm.writeFrameToBackingStore n).maxMemPerProcess = mm.maxMemPerProcess ∧
    (mm.writeFrameToBackingStore n).allocationStrategy = mm.allocationStrategy := by
  unfold MemoryManager.writeFrameToBackingStore
  repeat' split
  all_goals simp

theorem freeFramesLoop_fields (mm : MemoryManager) (ns : List Nat) :
    (freeFramesLoop mm ns).totalAllocated = mm.totalAllocated ∧
    (freeFramesLoop mm ns).totalFree = mm.totalFree ∧
    (freeFramesLoop mm ns).totalProcessesAllocated = mm.totalProcessesAllocated ∧
    (freeFramesLoop mm ns).processMemoryMap = mm.processMemoryMap ∧
    (freeFramesLoop mm ns).allocationType = mm.allocationType ∧
    (freeFramesLoop mm ns).blocks = mm.blocks ∧
    (freeFramesLoop mm ns).maxMemorySize = mm.maxMemorySize ∧
    (freeFramesLoop mm ns).memPerFrame = mm.memPerFrame ∧
    (freeFramesLoop mm ns).minMemPerProcess = mm.minMemPerProcess ∧
    (freeFramesLoop mm ns).maxMemPerProcess = mm.maxMemPerProcess ∧
    (freeFramesLoop mm ns).allocationStrategy = mm.allocationStrategy := by
  induction ns generalizing mm with
  | nil => simp [freeFramesLoop]
  | cons c rest ih =>
      simp only [freeFramesLoop]
      obtain ⟨-, h2, h3, h4, h5, h6, h7, h8, h9, h10, h11, h12⟩ :=
        writeFrameToBackingStore_fields mm c
      obtain ⟨g1, g2, g3, g4, g5, g6, g7, g8, g9, g10, g11⟩ := ih _
      exact ⟨by rw [g1]; exact h2, by rw [g2]; exact h3, by rw [g3]; exact h4,
        by rw [g4]; exact h5, by rw [g5]; exact h6, by rw [g6]; exact h7,
        by rw [g7]; exact h8, by rw [g8]; exact h9, by rw [g9]; exact h10,
        by rw [g10]; exact h11, by rw [g11]; exact h12⟩

theorem freeFramesLoop_getElem_not_mem (mm : MemoryManager) (ns : List Nat)
    (n : Nat) (hn : n ∉ ns) :
    (freeFramesLoop mm ns).frames[n]? = mm.frames[n]? := by
  induction ns generalizing mm with
  | nil => rfl
  | cons c rest ih =>
      simp only [freeFramesLoop]
      rw [ih _ (fun h => hn (List.mem_cons_of_mem c h))]
      simp only [(writeFrameToBackingStore_fields mm c).1]
      exact listModify_getElem_ne _ _ _ _
        (fun h => hn (by rw [h]; exact List.mem_cons_self c rest))

theorem freeFramesLoop_getElem_mem (mm : MemoryManager) (ns : List Nat)
    (hnd : ns.Nodup) (n : Nat) (hn : n ∈ ns) :
    (freeFramesLoop mm ns).frames[n]? = (mm.frames[n]?).map freeFrame := by
  induction ns generalizing mm with
  | nil => simp at hn
  | cons c rest ih =>
      rcases List.mem_cons.mp hn with rfl | hn2
      · have hnotrest : n ∉ rest := (List.nodup_cons.mp hnd).1
        simp only [freeFramesLoop]
        rw [freeFramesLoop_getElem_not_mem _ _ _ hnotrest]
        simp only [(writeFrameToBackingStore_fields mm n).1]
        exact listModify_getElem_self _ _ _
      · simp only [freeFramesLoop]
        rw [ih _ (List.nodup_cons.mp hnd).2 hn2]
        simp only [(writeFrameToBackingStore_fields mm c).1]
        rw [listModify_getElem_ne _ _ _ _
          (fun h => (List.nodup_cons.mp hnd).1 (by rw [← h]; exact hn2))]

/-! Association-list lemmas for the process-memory map. -/

theorem mapFind?_append_self (l : List (Int × ProcessMemoryInfo)) (pid : Int)
    (v : ProcessMemoryInfo) (h : mapFind? l pid = none) :
    mapFind? (l ++ [(pid, v)]) pid = some v := by
  induction l with
  | nil => simp [mapFind?, List.find?]
  | cons e rest ih =>
      unfold mapFind? at h ⊢
      rw [List.cons_append, List.find?]
      cases hb : (e.1 == pid)
      · rw [List.find?] at h
        rw [hb] at h
        exact ih h
      · rw [List.find?, hb] at h
        simp at h

theorem mapFind?_none_keys (l : List (Int × ProcessMemoryInfo)) (pid : Int)
    (h : mapFind? l pid = none) : ∀ e ∈ l, e.1 ≠ pid := by
  intro e he
  induction l with
  | nil => simp at he
  | cons a rest ih =>
      unfold mapFind? at h
      rw [List.find?] at h
      cases hb : (a.1 == pid)
      · rw [hb] at h
        rcases List.mem_cons.mp he with rfl | he2
        · intro hcon
          rw [hcon] at hb
          simp at hb
        · exact ih (by unfold mapFind?; exact h) he2
      · rw [hb] at h
        simp at h

/-! Equation lemmas for the success paths. -/

theorem allocateMemory_paging_success (mm : MemoryManager) (pid : Int)
    (name : String) (sz now : Nat)
    (hdup : mapFind? mm.processMemoryMap pid = none)
    (htype : mm.allocationType = AllocationType.PAGING)
    (hex : ¬ ((collectFreeFrames mm.frames (pagesFor mm sz)).length < pagesFor mm sz)) :
    mm.allocateMemory pid name sz now =
      (true,
       { mm with
           frames := markFrames mm.frames (chosenFrames mm sz) pid name
                       (pagesFor mm sz) (clampMemorySize mm sz) mm.memPerFrame now,
           totalAllocated := add64 mm.totalAllocated
                               (mul64 (pagesFor mm sz) mm.memPerFrame),
           totalFree := sub64 mm.totalFree (mul64 (pagesFor mm sz) mm.memPerFrame),
           totalProcessesAllocated := mm.totalProcessesAllocated + 1,
           processMemoryMap := mm.processMemoryMap ++
                                [(pid, pagingMemInfo mm pid name sz now)] }) := by
  unfold pagesFor at hex
  simp [MemoryManager.allocateMemory, hdup, htype, hex, pagesFor, chosenFrames,
    pagingMemInfo, markFrames]

theorem deallocateMemory_eq_paging (mm : MemoryManager) (pid : Int)
    (memInfo : ProcessMemoryInfo)
    (hfind : mapFind? mm.processMemoryMap pid = some memInfo)
    (htype : mm.allocationType = AllocationType.PAGING) :
    mm.deallocateMemory pid =
      (true,
       { freeFramesLoop mm memInfo.frameNumbers with
           totalAllocated := sub64 (freeFramesLoop mm memInfo.frameNumbers).totalAllocated
                               memInfo.memoryAllocated,
           totalFree := add64 (freeFramesLoop mm memInfo.frameNumbers).totalFree
                          memInfo.memoryAllocated,
           totalProcessesAllocated :=
             (freeFramesLoop mm memInfo.frameNumbers).totalProcessesAllocated - 1,
           processMemoryMap :=
             mapErase (freeFramesLoop mm memInfo.frameNumbers).processMemoryMap pid }) := by
  unfold MemoryManager.deallocateMemory
  rw [hfind]
  simp [htype]

theorem deallocateMemory_eq_flat (mm : MemoryManager) (pid : Int)
    (memInfo : ProcessMemoryInfo)
    (hfind : mapFind? mm.processMemoryMap pid = some memInfo)
    (htype : ¬ mm.allocationType = AllocationType.PAGING) :
    mm.deallocateMemory pid =
      (true,
       { mm with
           blocks := mergeFreeBlocks (freeOwnedBlock mm.blocks pid),
           totalAllocated := sub64 mm.totalAllocated memInfo.memoryAllocated,
           totalFree := add64 mm.totalFree memInfo.memoryAllocated,
           totalProcessesAllocated := mm.totalProcessesAllocated - 1,
           processMemoryMap := mapErase mm.processMemoryMap pid }) := by
  unfold MemoryManager.deallocateMemory
  rw [hfind]
  simp [htype]

/-! ## Free-frame set congruence -/

/-- The fields of a frame that determine membership in the free-frame set. -/
def frameKey (f : MemoryFrame) : Bool × Nat := (f.isFree, f.frameNumber)

theorem freeFrameNumbers_key_congr (l1 : List MemoryFrame) :
    ∀ l2 : List MemoryFrame, l1.map frameKey = l2.map frameKey →
      (l1.filter (fun f => f.isFree)).map (fun f => f.frameNumber) =
        (l2.filter (fun f => f.isFree)).map (fun f => f.frameNumber) := by
  induction l1 with
  | nil =>
      intro l2 h
      cases l2 with
      | nil => rfl
      | cons b r2 => simp at h
  | cons a r1 ih =>
      intro l2 h
      cases l2 with
      | nil => simp at h
      | cons b r2 =>
          simp only [List.map_cons, List.cons.injEq, frameKey, Prod.mk.injEq] at h
          obtain ⟨⟨hfree, hnum⟩, htail⟩ := h
          cases haf : a.isFree
          · have hbf : b.isFree = false := by rw [← hfree, haf]
            simp [List.filter_cons, haf, hbf, ih r2 htail]
          · have hbf : b.isFree = true := by rw [← hfree, haf]
            simp [List.filter_cons, haf, hbf, hnum, ih r2 htail]

theorem map_key_ext (l1 l2 : List MemoryFrame)
    (h : ∀ n : Nat, (l1[n]?).map frameKey = (l2[n]?).map frameKey) :
    l1.map frameKey = l2.map frameKey := by
  apply List.ext_getElem?
  intro n
  rw [List.getElem?_map, List.getElem?_map]
  exact h n

/-! ## Flat-mode success projections -/

theorem allocateMemory_flat_success_fields (mm : MemoryManager) (pid : Int)
    (name : String) (sz now : Nat)
    (hdup : mapFind? mm.processMemoryMap pid = none)
    (htype : ¬ mm.allocationType = AllocationType.PAGING)
    (hok : (mm.allocateMemory pid name sz now).1 = true) :
    (mm.allocateMemory pid name sz now).2.totalAllocated =
        add64 mm.totalAllocated (clampMemorySize mm sz) ∧
    (mm.allocateMemory pid name sz now).2.totalFree =
        sub64 mm.totalFree (clampMemorySize mm sz) ∧
    (mm.allocateMemory pid name sz now).2.totalProcessesAllocated =
        mm.totalProcessesAllocated + 1 ∧
    (mm.allocateMemory pid name sz now).2.allocationType = mm.allocationType ∧
    ∃ info : ProcessMemoryInfo, info.memoryAllocated = clampMemorySize mm sz ∧
      (mm.allocateMemory pid name sz now).2.processMemoryMap =
        mm.processMemoryMap ++ [(pid, info)] := by
  by_cases hfind : policyFindBlock mm (clampMemorySize mm sz) = -1
  · exfalso
    simp [MemoryManager.allocateMemory, hdup, htype, hfind] at hok
  · obtain ⟨j, hj, hjeq⟩ := policyFindBlock_found mm (clampMemorySize mm sz) hfind
    have hsome : mm.blocks[(policyFindBlock mm (clampMemorySize mm sz)).toNat]? =
        some (mm.blocks.get ⟨j, hj⟩) := by
      rw [hjeq]
      simp [List.getElem?_eq_getElem hj]
    refine ⟨?_, ?_, ?_, ?_, ?_⟩
    · simp [MemoryManager.allocateMemory, hdup, htype, hfind, hsome]
    · simp [MemoryManager.allocateMemory, hdup, htype, hfind, hsome]
    · simp [MemoryManager.allocateMemory, hdup, htype, hfind, hsome]
    · simp [MemoryManager.allocateMemory, hdup, htype, hfind, hsome]
    · refine
        ⟨{ processID := pid,
           processName := name,
           memoryRequired := clampMemorySize mm sz,
           memoryAllocated := clampMemorySize mm sz,
           frameNumbers := [],
           startAddress := (mm.blocks.get ⟨j, hj⟩).startAddress,
           allocationTime := now,
           numPages := 0 }, rfl, ?_⟩
      simp [MemoryManager.allocateMemory, hdup, htype, hfind, hsome]

/-! ## Claim C4: allocate/deallocate round trip -/

/-- C4: for a pid without a record, a successful allocateMemory followed
immediately by deallocateMemory succeeds and restores totalAllocated,
totalFree and totalProcessesAllocated to their pre-allocate values, and in
paged mode restores the exact set of free frames (the backing-store
journal and the pages-paged-out counter are left as traces; the
write-only frame timestamps are display data). -/
theorem allocate_then_deallocate_roundtrip (mm : MemoryManager) (pid : Int)
    (name : String) (sz now : Nat)
    (hdup : mapFind? mm.processMemoryMap pid = none)
    (hwn : FramesWellNumbered mm.frames)
    (hA : mm.totalAllocated < W64) (hF : mm.totalFree < W64)
    (hok : (mm.allocateMemory pid name sz now).1 = true) :
    (((mm.allocateMemory pid name sz now).2.deallocateMemory pid).1 = true) ∧
    ((mm.allocateMemory pid name sz now).2.deallocateMemory pid).2.totalAllocated
        = mm.totalAllocated ∧
    ((mm.allocateMemory pid name sz now).2.deallocateMemory pid).2.totalFree
        = mm.totalFree ∧
    ((mm.allocateMemory pid name sz now).2.deallocateMemory pid).2.totalProcessesAllocated
        = mm.totalProcessesAllocated ∧
    (mm.allocationType = AllocationType.PAGING →
      freeFrameNumbers ((mm.allocateMemory pid name sz now).2.deallocateMemory pid).2
        = freeFrameNumbers mm) := by
  by_cases htype : mm.allocationType = AllocationType.PAGING
  · by_cases hex : (collectFreeFrames mm.frames (pagesFor mm sz)).length < pagesFor mm sz
    · exfalso
      unfold pagesFor at hex
      simp [MemoryManager.allocateMemory, hdup, htype, hex] at hok
    · have hnd := chosenFrames_nodup mm sz hwn
      have halloc := allocateMemory_paging_success mm pid name sz now hdup htype hex
      set M1 : MemoryManager :=
        { mm with
            frames := markFrames mm.frames (chosenFrames mm sz) pid name
                        (pagesFor mm sz) (clampMemorySize mm sz) mm.memPerFrame now,
            totalAllocated := add64 mm.totalAllocated
                                (mul64 (pagesFor mm sz) mm.memPerFrame),
            totalFree := sub64 mm.totalFree (mul64 (pagesFor mm sz) mm.memPerFrame),
            totalProcessesAllocated := mm.totalProcessesAllocated + 1,
            processMemoryMap := mm.processMemoryMap ++
                                 [(pid, pagingMemInfo mm pid name sz now)] } with hM1
      have halloc2 : (mm.allocateMemory pid name sz now).2 = M1 := by rw [halloc]
      rw [halloc2]
      have hfind1 : mapFind? M1.processMemoryMap pid =
          some (pagingMemInfo mm pid name sz now) := by
        rw [hM1]
        exact mapFind?_append_self mm.processMemoryMap pid _ hdup
      have htype1 : M1.allocationType = AllocationType.PAGING := by
        rw [hM1]
        exact htype
      have hde := deallocateMemory_eq_paging M1 pid (pagingMemInfo mm pid name sz now)
        hfind1 htype1
      rw [hde]
      obtain ⟨f1, f2, f3, -, -, -, -, -, -, -, -⟩ :=
        freeFramesLoop_fields M1 (pagingMemInfo mm pid name sz now).frameNumbers
      have hfrNums : (pagingMemInfo mm pid name sz now).frameNumbers =
          chosenFrames mm sz := rfl
      have hM1frames : M1.frames = markFramesAux mm.frames (chosenFrames mm sz) 0
          pid name (pagesFor mm sz) (clampMemorySize mm sz) mm.memPerFrame now := by
        rw [hM1]
        rfl
      refine ⟨rfl, ?_, ?_, ?_, ?_⟩
      · show sub64
            (freeFramesLoop M1 (pagingMemInfo mm pid name sz now).frameNumbers).totalAllocated
            (pagingMemInfo mm pid name sz now).memoryAllocated = mm.totalAllocated
        rw [f1, hM1]
        show sub64 (add64 mm.totalAllocated (mul64 (pagesFor mm sz) mm.memPerFrame))
          (mul64 (pagesFor mm sz) mm.memPerFrame) = mm.totalAllocated
        rw [sub64_add64_cancel]
        exact Nat.mod_eq_of_lt hA
      · show add64
            (freeFramesLoop M1 (pagingMemInfo mm pid name sz now).frameNumbers).totalFree
            (pagingMemInfo mm pid name sz now).memoryAllocated = mm.totalFree
        rw [f2, hM1]
        show add64 (sub64 mm.totalFree (mul64 (pagesFor mm sz) mm.memPerFrame))
          (mul64 (pagesFor mm sz) mm.memPerFrame) = mm.totalFree
        rw [add64_sub64_cancel]
        exact Nat.mod_eq_of_lt hF
      · show (freeFramesLoop M1 (pagingMemInfo mm pid name sz now).frameNumbers).totalProcessesAllocated
            - 1 = mm.totalProcessesAllocated
        rw [f3, hM1]
        show (mm.totalProcessesAllocated + 1) - 1 = mm.totalProcessesAllocated
        omega
      · intro _
        show freeFrameNumbers
            { freeFramesLoop M1 (pagingMemInfo mm pid name sz now).frameNumbers with
                totalAllocated := sub64 _ _, totalFree := add64 _ _,
                totalProcessesAllocated := _, processMemoryMap := _ }
          = freeFrameNumbers mm
        unfold freeFrameNumbers
        apply freeFrameNumbers_key_congr
        apply map_key_ext
        intro n
        show ((freeFramesLoop M1 (pagingMemInfo mm pid name sz now).frameNumbers).frames[n]?).map frameKey
          = (mm.frames[n]?).map frameKey
        rw [hfrNums]
        by_cases hn : n ∈ chosenFrames mm sz
        · rw [freeFramesLoop_getElem_mem M1 (chosenFrames mm sz) hnd n hn, hM1frames]
          obtain ⟨k, hk, hkeq, hval⟩ := markFramesAux_getElem_mem mm.frames
            (chosenFrames mm sz) 0 pid name (pagesFor mm sz) (clampMemorySize mm sz)
            mm.memPerFrame now hnd n hn
          rw [hval]
          obtain ⟨hlt, hfree⟩ := chosenFrames_mem mm sz hwn n hn
          rw [List.getElem?_eq_getElem hlt]
          have hfree2 : mm.frames[n].isFree = true := hfree
          simp [frameKey, freeFrame, markedFrame, hfree2]
        · rw [freeFramesLoop_getElem_not_mem M1 (chosenFrames mm sz) n hn, hM1frames,
            markFramesAux_getElem_not_mem mm.frames (chosenFrames mm sz) 0 pid name
              (pagesFor mm sz) (clampMemorySize mm sz) mm.memPerFrame now n hn]
  · obtain ⟨g1, g2, g3, g4, info, hIA, hmapEq⟩ :=
      allocateMemory_flat_success_fields mm pid name sz now hdup htype hok
    have hfind1 : mapFind? (mm.allocateMemory pid name sz now).2.processMemoryMap pid
        = some info := by
      rw [hmapEq]
      exact mapFind?_append_self mm.processMemoryMap pid info hdup
    have htype1 : ¬ (mm.allocateMemory pid name sz now).2.allocationType =
        AllocationType.PAGING := by
      rw [g4]
      exact htype
    have hde := deallocateMemory_eq_flat (mm.allocateMemory pid name sz now).2 pid info
      hfind1 htype1
    rw [hde]
    refine ⟨rfl, ?_, ?_, ?_, ?_⟩
    · show sub64 (mm.allocateMemory pid name sz now).2.totalAllocated info.memoryAllocated
          = mm.totalAllocated
      rw [g1, hIA, sub64_add64_cancel]
      exact Nat.mod_eq_of_lt hA
    · show add64 (mm.allocateMemory pid name sz now).2.totalFree info.memoryAllocated
          = mm.totalFree
      rw [g2, hIA, add64_sub64_cancel]
      exact Nat.mod_eq_of_lt hF
    · show (mm.allocateMemory pid name sz now).2.totalProcessesAllocated - 1
          = mm.totalProcessesAllocated
      rw [g3]
      omega
    · intro hcon
      exact absurd hcon htype

/-- Witness manager for C4: a fresh paged manager. -/
def c4WitnessMM : MemoryManager :=
  MemoryManager.create 64 16 4 64 AllocationType.PAGING AllocationStrategy.FIRST_FIT

theorem allocate_then_deallocate_roundtrip_witness :
    (((c4WitnessMM.allocateMemory 1 "p" 20 0).2.deallocateMemory 1).1 = true) ∧
    ((c4WitnessMM.allocateMemory 1 "p" 20 0).2.deallocateMemory 1).2.totalAllocated
        = c4WitnessMM.totalAllocated ∧
    ((c4WitnessMM.allocateMemory 1 "p" 20 0).2.deallocateMemory 1).2.totalFree
        = c4WitnessMM.totalFree ∧
    ((c4WitnessMM.allocateMemory 1 "p" 20 0).2.deallocateMemory 1).2.totalProcessesAllocated
        = c4WitnessMM.totalProcessesAllocated ∧
    (c4WitnessMM.allocationType = AllocationType.PAGING →
      freeFrameNumbers ((c4WitnessMM.allocateMemory 1 "p" 20 0).2.deallocateMemory 1).2
        = freeFrameNumbers c4WitnessMM) :=
  allocate_then_deallocate_roundtrip c4WitnessMM 1 "p" 20 0 (by decide)
    (by unfold FramesWellNumbered; decide) (by decide) (by decide) (by decide)

/-! ## Sum bookkeeping for the paged invariant (claim C1) -/

/-- Size stored at frame position `n` (0 when out of range). -/
def frameSizeAt (frames : List MemoryFrame) (n : Nat) : Nat :=
  ((frames[n]?).map (fun f => f.size)).getD 0

/-- Contribution of one frame to the non-free size sum. -/
def frameContrib (f : MemoryFrame) : Nat := if f.isFree then 0 else f.size

theorem nonFreeSizeSum_eq_contrib (frames : List MemoryFrame) :
    nonFreeSizeSum frames = (frames.map frameContrib).sum := rfl

theorem nonFreeSizeSum_listModify (frames : List MemoryFrame) (c : Nat)
    (g : MemoryFrame → MemoryFrame) (fr : MemoryFrame)
    (hsome : frames[c]? = some fr) :
    nonFreeSizeSum (listModify frames c g) + frameContrib fr =
      nonFreeSizeSum frames + frameContrib (g fr) := by
  induction frames generalizing c with
  | nil => simp at hsome
  | cons a rest ih =>
      match c with
      | 0 =>
          have : a = fr := by simpa using hsome
          subst this
          simp only [listModify, nonFreeSizeSum, List.map_cons, List.sum_cons]
          show frameContrib (g a) + _ + frameContrib a = frameContrib a + _ + frameContrib (g a)
          omega
      | c + 1 =>
          have hsome2 : rest[c]? = some fr := by simpa using hsome
          have := ih c hsome2
          simp only [listModify, nonFreeSizeSum, List.map_cons, List.sum_cons] at this ⊢
          omega

theorem listModify_frameSizeAt_ne (frames : List MemoryFrame) (c n : Nat)
    (g : MemoryFrame → MemoryFrame) (h : n ≠ c) :
    frameSizeAt (listModify frames c g) n = frameSizeAt frames n := by
  unfold frameSizeAt
  rw [listModify_getElem_ne _ _ _ _ h]

theorem range_shift_sum (len i p m f : Nat) :
    ((List.range (len + 1)).map (fun k => frameSizeFor (i + k) p m f)).sum =
      frameSizeFor i p m f +
        ((List.range len).map (fun k => frameSizeFor (i + 1 + k) p m f)).sum := by
  rw [List.range_succ_eq_map]
  simp only [List.map_cons, List.sum_cons, List.map_map, Nat.add_zero]
  have hmap : List.map ((fun k => frameSizeFor (i + k) p m f) ∘ Nat.succ)
        (List.range len) =
      List.map (fun k => frameSizeFor (i + 1 + k) p m f) (List.range len) := by
    apply List.map_congr_left
    intro k _
    simp only [Function.comp]
    congr 1
    omega
  rw [hmap]

theorem markFramesAux_sum (frames : List MemoryFrame) (ch : List Nat) (i : Nat)
    (pid : Int) (name : String) (p m f now : Nat) (hnd : ch.Nodup)
    (hch : ∀ c ∈ ch, ∃ fr, frames[c]? = some fr ∧ fr.isFree = true) :
    nonFreeSizeSum (markFramesAux frames ch i pid name p m f now) =
      nonFreeSizeSum frames +
        ((List.range ch.length).map (fun k => frameSizeFor (i + k) p m f)).sum := by
  induction ch generalizing frames i with
  | nil => simp [markFramesAux]
  | cons c rest ih =>
      obtain ⟨fr, hsome, hfree⟩ := hch c (List.mem_cons_self c rest)
      have hnotrest : c ∉ rest := (List.nodup_cons.mp hnd).1
      simp only [markFramesAux]
      rw [ih _ (i + 1) (List.nodup_cons.mp hnd).2 ?hch2]
      case hch2 =>
        intro c2 hc2
        obtain ⟨fr2, hsome2, hfree2⟩ := hch c2 (List.mem_cons_of_mem c hc2)
        refine ⟨fr2, ?_, hfree2⟩
        rw [listModify_getElem_ne _ _ _ _
          (fun h => hnotrest (by rw [← h]; exact hc2))]
        exact hsome2
      have hmod := nonFreeSizeSum_listModify frames c
        (markedFrame pid name (frameSizeFor i p m f) now) fr hsome
      have h0 : frameContrib fr = 0 := by simp [frameContrib, hfree]
      have h1 : frameContrib (markedFrame pid name (frameSizeFor i p m f) now fr) =
          frameSizeFor i p m f := rfl
      rw [h0, h1] at hmod
      simp only [List.length_cons]
      rw [range_shift_sum]
      omega

theorem markFramesAux_chosen_sizes (frames : List MemoryFrame) (ch : List Nat)
    (i : Nat) (pid : Int) (name : String) (p m f now : Nat) (hnd : ch.Nodup)
    (hch : ∀ c ∈ ch, ∃ fr, frames[c]? = some fr ∧ fr.isFree = true) :
    (ch.map (fun n => frameSizeAt (markFramesAux frames ch i pid name p m f now) n)).sum =
      ((List.range ch.length).map (fun k => frameSizeFor (i + k) p m f)).sum := by
  induction ch generalizing frames i with
  | nil => simp
  | cons c rest ih =>
      obtain ⟨fr, hsome, hfree⟩ := hch c (List.mem_cons_self c rest)
      have hnotrest : c ∉ rest := (List.nodup_cons.mp hnd).1
      simp only [markFramesAux, List.map_cons, List.sum_cons]
      have hhead : frameSizeAt (markFramesAux
          (listModify frames c
            (markedFrame pid name (frameSizeFor i p m f) now))
          rest (i + 1) pid name p m f now) c = frameSizeFor i p m f := by
        unfold frameSizeAt
        rw [markFramesAux_getElem_not_mem _ _ _ _ _ _ _ _ _ _ hnotrest,
          listModify_getElem_self, hsome]
        rfl
      rw [hhead, ih _ (i + 1) (List.nodup_cons.mp hnd).2 ?hch2]
      case hch2 =>
        intro c2 hc2
        obtain ⟨fr2, hsome2, hfree2⟩ := hch c2 (List.mem_cons_of_mem c hc2)
        refine ⟨fr2, ?_, hfree2⟩
        rw [listModify_getElem_ne _ _ _ _
          (fun h => hnotrest (by rw [← h]; exact hc2))]
        exact hsome2
      simp only [List.length_cons]
      rw [range_shift_sum]

theorem freeFramesLoop_length (mm : MemoryManager) (ns : List Nat) :
    (freeFramesLoop mm ns).frames.length = mm.frames.length := by
  induction ns generalizing mm with
  | nil => rfl
  | cons c rest ih =>
      simp only [freeFramesLoop]
      rw [ih]
      simp only [(writeFrameToBackingStore_fields mm c).1, listModify_length]

theorem markFramesAux_frames_length (frames : List MemoryFrame) (ch : List Nat)
    (i : Nat) (pid : Int) (name : String) (p m f now : Nat) :
    (markFramesAux frames ch i pid name p m f now).length = frames.length :=
  markFramesAux_length frames ch i pid name p m f now

theorem freeFramesLoop_sum (mm : MemoryManager) (ns : List Nat) (hnd : ns.Nodup)
    (hns : ∀ n ∈ ns, ∃ fr, mm.frames[n]? = some fr ∧ fr.isFree = false) :
    nonFreeSizeSum (freeFramesLoop mm ns).frames +
        (ns.map (fun n => frameSizeAt mm.frames n)).sum =
      nonFreeSizeSum mm.frames := by
  induction ns generalizing mm with
  | nil => simp [freeFramesLoop]
  | cons c rest ih =>
      obtain ⟨fr, hsome, hbusy⟩ := hns c (List.mem_cons_self c rest)
      have hnotrest : c ∉ rest := (List.nodup_cons.mp hnd).1
      simp only [freeFramesLoop, List.map_cons, List.sum_cons]
      set mm2 : MemoryManager :=
        { mm.writeFrameToBackingStore c with
            frames := listModify (mm.writeFrameToBackingStore c).frames c freeFrame } with hmm2
      have hmm2frames : mm2.frames = listModify mm.frames c freeFrame := by
        rw [hmm2]
        show listModify (mm.writeFrameToBackingStore c).frames c freeFrame = _
        rw [(writeFrameToBackingStore_fields mm c).1]
      have hih := ih mm2 (List.nodup_cons.mp hnd).2 ?hns2
      case hns2 =>
        intro n hn
        obtain ⟨fr2, hsome2, hfree2⟩ := hns n (List.mem_cons_of_mem c hn)
        refine ⟨fr2, ?_, hfree2⟩
        rw [hmm2frames, listModify_getElem_ne _ _ _ _
          (fun h => hnotrest (by rw [← h]; exact hn))]
        exact hsome2
      have hmod := nonFreeSizeSum_listModify mm.frames c freeFrame fr hsome
      rw [show frameContrib (freeFrame fr) = 0 from by simp [frameContrib, freeFrame]]
        at hmod
      have hsz : frameSizeAt mm.frames c = frameContrib fr := by
        unfold frameSizeAt frameContrib
        rw [hsome, hbusy]
        rfl
      have hcong : (rest.map (fun n => frameSizeAt (listModify mm.frames c freeFrame) n)).sum =
          (rest.map (fun n => frameSizeAt mm.frames n)).sum := by
        apply congrArg
        apply List.map_congr_left
        intro n hn
        rw [listModify_frameSizeAt_ne _ _ _ _
          (fun h => hnotrest (by rw [← h]; exact hn))]
      rw [hmm2frames] at hih
      rw [hcong] at hih
      omega

/-! ## The assigned frame sizes sum to the clamped request -/

theorem frameSizeFor_sum (m f : Nat) (hf : 1 ≤ f) (hsum : m + f ≤ W64) :
    ((List.range (pagesNeededFor m f)).map
        (fun k => frameSizeFor k (pagesNeededFor m f) m f)).sum = m := by
  have hW : 0 < W64 := by unfold W64; positivity
  have hmod : (m + f - 1) % W64 = m + f - 1 := by
    apply Nat.mod_eq_of_lt
    omega
  have hp : pagesNeededFor m f = (m + f - 1) / f := by
    unfold pagesNeededFor
    rw [hmod]
  rcases Nat.eq_zero_or_pos (pagesNeededFor m f) with hzero | hpos
  · rw [hzero]
    have : m = 0 := by
      rw [hp] at hzero
      have := Nat.div_eq_zero_iff (by omega : 0 < f) |>.mp hzero
      omega
    simp [this]
  · set p := pagesNeededFor m f with hpdef
    have hmulle : p * f ≤ m + f - 1 := by
      rw [hp]
      exact Nat.div_mul_le_self _ _
    have hlast : (p - 1) * f ≤ m - 1 := by
      have : (p - 1) * f = p * f - f := by
        cases p with
        | zero => omega
        | succ q => simp [Nat.succ_sub_one, Nat.succ_mul]
      omega
    have hmW : m < W64 := by omega
    have hmulW : (p - 1) * f < W64 := by omega
    have hlastsz : frameSizeFor (p - 1) p m f = m - (p - 1) * f := by
      unfold frameSizeFor
      rw [if_pos rfl]
      unfold mul64
      rw [Nat.mod_eq_of_lt hmulW]
      exact sub64_of_le m ((p - 1) * f) (by omega) hmW
    have hsplit : p = (p - 1) + 1 := by omega
    have hrangep : List.range p = List.range (p - 1) ++ [p - 1] := by
      conv_lhs => rw [hsplit]
      rw [List.range_succ]
    rw [hrangep, List.map_append, List.sum_append]
    have hinit : ((List.range (p - 1)).map (fun k => frameSizeFor k p m f)).sum =
        (p - 1) * f := by
      have hconst : (List.range (p - 1)).map (fun k => frameSizeFor k p m f) =
          (List.range (p - 1)).map (fun _ => f) := by
        apply List.map_congr_left
        intro k hk
        have hk2 : k < p - 1 := List.mem_range.mp hk
        unfold frameSizeFor
        rw [if_neg (by omega)]
      rw [hconst]
      have hrepl : List.map (fun _ => f) (List.range (p - 1)) =
          List.replicate (p - 1) f := by
        simp [List.map_const, List.eq_replicate, List.length_range]
      rw [hrepl, List.sum_replicate, smul_eq_mul]
    rw [hinit]
    simp only [List.map_cons, List.sum_cons, List.map_nil, List.sum_nil]
    rw [hlastsz]
    omega

/-! ## More association-list lemmas -/

theorem mapFind?_some_mem (l : List (Int × ProcessMemoryInfo)) (pid : Int)
    (r : ProcessMemoryInfo) (h : mapFind? l pid = some r) : (pid, r) ∈ l := by
  unfold mapFind? at h
  cases hf : l.find? (fun e => e.1 == pid) with
  | none => rw [hf] at h; simp at h
  | some e =>
      rw [hf] at h
      have hmem := List.mem_of_find?_eq_some hf
      have hpid : (e.1 == pid) = true := by
        have := List.find?_some hf
        simpa using this
      have hpid2 : e.1 = pid := by simpa using hpid
      have her : e.2 = r := by simpa using h
      have he : e = (pid, r) := by
        obtain ⟨a, b⟩ := e
        simp only at hpid2 her
        rw [hpid2, her]
      rw [← he]
      exact hmem

theorem mapErase_eq_self (l : List (Int × ProcessMemoryInfo)) (pid : Int)
    (h : ∀ e ∈ l, e.1 ≠ pid) : mapErase l pid = l := by
  unfold mapErase
  apply List.filter_eq_self.mpr
  intro e he
  have := h e he
  simp [this]

theorem mapErase_cons_keep (e : Int × ProcessMemoryInfo)
    (rest : List (Int × ProcessMemoryInfo)) (pid : Int)
    (h : (e.1 == pid) = false) :
    mapErase (e :: rest) pid = e :: mapErase rest pid := by
  unfold mapErase
  rw [List.filter_cons, h]
  rfl

theorem mapErase_cons_drop (e : Int × ProcessMemoryInfo)
    (rest : List (Int × ProcessMemoryInfo)) (pid : Int)
    (h : (e.1 == pid) = true) :
    mapErase (e :: rest) pid = mapErase rest pid := by
  unfold mapErase
  rw [List.filter_cons, h]
  rfl

theorem mapErase_sum (l : List (Int × ProcessMemoryInfo)) (pid : Int)
    (r : ProcessMemoryInfo) (hfind : mapFind? l pid = some r)
    (hnd : (l.map (fun e => e.1)).Nodup) :
    ((mapErase l pid).map (fun e => e.2.memoryRequired)).sum + r.memoryRequired =
      (l.map (fun e => e.2.memoryRequired)).sum := by
  induction l with
  | nil => simp [mapFind?] at hfind
  | cons e rest ih =>
      rw [List.map_cons] at hnd
      have hnd2 := List.nodup_cons.mp hnd
      unfold mapFind? at hfind
      rw [List.find?] at hfind
      cases hb : (e.1 == pid)
      · rw [hb] at hfind
        have hrest := ih (by unfold mapFind?; exact hfind) hnd2.2
        rw [mapErase_cons_keep e rest pid hb]
        simp only [List.map_cons, List.sum_cons]
        omega
      · rw [hb] at hfind
        have her : e.2 = r := by simpa using hfind
        have hepid : e.1 = pid := by simpa using hb
        have hnorest : ∀ x ∈ rest, x.1 ≠ pid := by
          intro x hx hcon
          apply hnd2.1
          rw [hepid, ← hcon]
          exact List.mem_map_of_mem (fun e => e.1) hx
        rw [mapErase_cons_drop e rest pid hb,
          mapErase_eq_self rest pid hnorest, ← her]
        simp only [List.map_cons, List.sum_cons]
        omega

theorem keys_nodup_inj (l : List (Int × ProcessMemoryInfo))
    (hnd : (l.map (fun e => e.1)).Nodup) :
    ∀ a ∈ l, ∀ b ∈ l, a.1 = b.1 → a = b := by
  induction l with
  | nil => intro a ha; simp at ha
  | cons e rest ih =>
      rw [List.map_cons] at hnd
      have hnd2 := List.nodup_cons.mp hnd
      intro a ha b hb hab
      rcases List.mem_cons.mp ha with rfl | ha2
      · rcases List.mem_cons.mp hb with rfl | hb2
        · rfl
        · exfalso
          apply hnd2.1
          rw [hab]
          exact List.mem_map_of_mem (fun e => e.1) hb2
      · rcases List.mem_cons.mp hb with rfl | hb2
        · exfalso
          apply hnd2.1
          rw [← hab]
          exact List.mem_map_of_mem (fun e => e.1) ha2
        · exact ih hnd2.2 a ha2 b hb2 hab

theorem mapErase_keys_nodup (l : List (Int × ProcessMemoryInfo)) (pid : Int)
    (hnd : (l.map (fun e => e.1)).Nodup) :
    ((mapErase l pid).map (fun e => e.1)).Nodup :=
  List.Nodup.sublist (List.Sublist.map _ (List.filter_sublist l)) hnd

theorem mapErase_mem (l : List (Int × ProcessMemoryInfo)) (pid : Int) :
    ∀ e ∈ mapErase l pid, e ∈ l := by
  intro e he
  exact List.mem_of_mem_filter he

theorem mem_mapErase_of_ne (l : List (Int × ProcessMemoryInfo)) (pid : Int)
    (e : Int × ProcessMemoryInfo) (he : e ∈ l) (hne : e.1 ≠ pid) :
    e ∈ mapErase l pid := by
  unfold mapErase
  apply List.mem_filter.mpr
  exact ⟨he, by simp [hne]⟩

/-! ## Frame numbers are preserved by marking and freeing -/

theorem listModify_frameNumber (frames : List MemoryFrame) (c : Nat)
    (g : MemoryFrame → MemoryFrame)
    (hg : ∀ fr, (g fr).frameNumber = fr.frameNumber) (n : Nat) :
    ((listModify frames c g)[n]?).map (fun f => f.frameNumber) =
      (frames[n]?).map (fun f => f.frameNumber) := by
  by_cases h : n = c
  · subst h
    rw [listModify_getElem_self]
    cases frames[n]? with
    | none => rfl
    | some fr => simp [hg]
  · rw [listModify_getElem_ne _ _ _ _ h]

theorem markFramesAux_frameNumber (frames : List MemoryFrame) (ch : List Nat)
    (i : Nat) (pid : Int) (name : String) (p m f now : Nat) (n : Nat) :
    (((markFramesAux frames ch i pid name p m f now)[n]?).map (fun f => f.frameNumber)) =
      ((frames[n]?).map (fun f => f.frameNumber)) := by
  induction ch generalizing frames i with
  | nil => rfl
  | cons c rest ih =>
      simp only [markFramesAux]
      rw [ih]
      exact listModify_frameNumber frames c
        (markedFrame pid name (frameSizeFor i p m f) now) (fun fr => rfl) n

theorem freeFramesLoop_frameNumber (mm : MemoryManager) (ns : List Nat) (n : Nat) :
    (((freeFramesLoop mm ns).frames[n]?).map (fun f => f.frameNumber)) =
      ((mm.frames[n]?).map (fun f => f.frameNumber)) := by
  induction ns generalizing mm with
  | nil => rfl
  | cons c rest ih =>
      simp only [freeFramesLoop]
      rw [ih]
      show ((listModify (mm.writeFrameToBackingStore c).frames c freeFrame)[n]?).map _ = _
      rw [(writeFrameToBackingStore_fields mm c).1]
      exact listModify_frameNumber mm.frames c freeFrame (fun fr => rfl) n

theorem framesWellNumbered_of_pointwise (l1 l2 : List MemoryFrame)
    (hlen : l2.length = l1.length)
    (hpt : ∀ n : Nat, (l2[n]?).map (fun f => f.frameNumber) =
      (l1[n]?).map (fun f => f.frameNumber))
    (hwn : FramesWellNumbered l1) : FramesWellNumbered l2 := by
  intro i h
  have h1 : i < l1.length := by omega
  have hi := hpt i
  rw [List.getElem?_eq_getElem h, List.getElem?_eq_getElem h1] at hi
  have h3 : (l2.get ⟨i, h⟩).frameNumber = (l1.get ⟨i, h1⟩).frameNumber := by
    simpa using hi
  rw [h3]
  exact hwn i h1

/-! ## Facts about the freshly constructed paged manager -/

theorem initFrames_wellNumbered (n : Nat) : FramesWellNumbered (initFrames n) := by
  intro i h
  unfold initFrames at h ⊢
  have hi : i < n := by simpa using h
  simp [MemoryFrame.init]

theorem nonFreeSizeSum_initFrames (n : Nat) : nonFreeSizeSum (initFrames n) = 0 := by
  unfold nonFreeSizeSum initFrames
  rw [List.map_map]
  have hconst : ((fun f => if f.isFree then 0 else f.size) ∘ MemoryFrame.init) =
      fun _ => (0 : Nat) := rfl
  rw [hconst]
  simp

theorem initFrames_all_free (n i : Nat) (fr : MemoryFrame)
    (h : (initFrames n)[i]? = some fr) : fr.isFree = true := by
  have hmem : fr ∈ initFrames n := List.getElem?_mem h
  unfold initFrames at hmem
  obtain ⟨j, -, hj⟩ := List.mem_map.mp hmem
  rw [← hj]
  rfl

/-! ## Remaining helpers -/

theorem clampMemorySize_le (mm : MemoryManager) (sz : Nat) :
    clampMemorySize mm sz ≤ mm.maxMemPerProcess := by
  unfold clampMemorySize
  dsimp only
  split <;> split <;> omega

theorem mapErase_mem_ne (l : List (Int × ProcessMemoryInfo)) (pid : Int)
    (e : Int × ProcessMemoryInfo) (he : e ∈ mapErase l pid) :
    e ∈ l ∧ e.1 ≠ pid := by
  unfold mapErase at he
  obtain ⟨h1, h2⟩ := List.mem_filter.mp he
  refine ⟨h1, ?_⟩
  intro hcon
  rw [hcon] at h2
  simp at h2

theorem chosenFrames_mem_opt (mm : MemoryManager) (sz : Nat)
    (hwn : FramesWellNumbered mm.frames) :
    ∀ c ∈ chosenFrames mm sz,
      ∃ fr, mm.frames[c]? = some fr ∧ fr.isFree = true := by
  intro c hc
  obtain ⟨h, hfree⟩ := chosenFrames_mem mm sz hwn c hc
  refine ⟨mm.frames.get ⟨c, h⟩, ?_, hfree⟩
  rw [List.getElem?_eq_getElem h]
  rfl

/-! ## The paged-mode inductive invariant (claim C1) -/

/-- Invariant of every reachable paged manager: frames are numbered by
position, map keys are distinct, each record owns pairwise-distinct
non-free frames marked with its pid, every non-free frame is owned, each
record@s frames hold sizes summing to its (clamped) request, and the
non-free sizes globally sum to the requests of all records. -/
structure PagedInv (mm : MemoryManager) : Prop where
  ptype : mm.allocationType = AllocationType.PAGING
  frameGe : 1 ≤ mm.memPerFrame
  noOverflow : mm.maxMemPerProcess + mm.memPerFrame ≤ W64
  wellNumbered : FramesWellNumbered mm.frames
  keysNodup : (mm.processMemoryMap.map (fun e => e.1)).Nodup
  recNodup : ∀ e ∈ mm.processMemoryMap, e.2.frameNumbers.Nodup
  recOwn : ∀ e ∈ mm.processMemoryMap, ∀ n ∈ e.2.frameNumbers,
      ∃ fr, mm.frames[n]? = some fr ∧ fr.isFree = false ∧ fr.processID = e.1
  owned : ∀ (n : Nat) (fr : MemoryFrame), mm.frames[n]? = some fr →
      fr.isFree = false → ∃ e ∈ mm.processMemoryMap, n ∈ e.2.frameNumbers
  recSum : ∀ e ∈ mm.processMemoryMap,
      (e.2.frameNumbers.map (fun n => frameSizeAt mm.frames n)).sum =
        e.2.memoryRequired
  sumEq : nonFreeSizeSum mm.frames =
      (mm.processMemoryMap.map (fun e => e.2.memoryRequired)).sum

theorem pagedInv_create (maxMem memFrame minMem maxMemProc : Nat)
    (strategy : AllocationStrategy) (hf : 1 ≤ memFrame)
    (hof : maxMemProc + memFrame ≤ W64) :
    PagedInv (MemoryManager.create maxMem memFrame minMem maxMemProc
      AllocationType.PAGING strategy) := by
  have hfr : (MemoryManager.create maxMem memFrame minMem maxMemProc
      AllocationType.PAGING strategy).frames = initFrames (maxMem / memFrame) := by
    simp [MemoryManager.create]
  have hmap : (MemoryManager.create maxMem memFrame minMem maxMemProc
      AllocationType.PAGING strategy).processMemoryMap = [] := rfl
  refine ⟨rfl, hf, hof, ?_, ?_, ?_, ?_, ?_, ?_, ?_⟩
  · rw [hfr]
    exact initFrames_wellNumbered _
  · rw [hmap]
    simp
  · rw [hmap]
    intro e he
    simp at he
  · rw [hmap]
    intro e he
    simp at he
  · intro n fr hsome hnf
    rw [hfr] at hsome
    have := initFrames_all_free (maxMem / memFrame) n fr hsome
    rw [this] at hnf
    simp at hnf
  · rw [hmap]
    intro e he
    simp at he
  · rw [hfr, hmap, nonFreeSizeSum_initFrames]
    simp

theorem pagedInv_alloc (mm : MemoryManager) (pid : Int) (name : String)
    (sz now : Nat) (inv : PagedInv mm) :
    PagedInv (mm.allocateMemory pid name sz now).2 := by
  by_cases hdup : (mapFind? mm.processMemoryMap pid).isSome = true
  · have heq : (mm.allocateMemory pid name sz now).2 = mm := by
      simp [MemoryManager.allocateMemory, hdup]
    rw [heq]
    exact inv
  · have hnone : mapFind? mm.processMemoryMap pid = none := by
      cases hmf : mapFind? mm.processMemoryMap pid
      · rfl
      · rw [hmf] at hdup
        exact absurd rfl hdup
    by_cases hex : (collectFreeFrames mm.frames (pagesFor mm sz)).length < pagesFor mm sz
    · have heq : (mm.allocateMemory pid name sz now).2 =
          { mm with allocationFailures := mm.allocationFailures + 1 } := by
        unfold pagesFor at hex
        simp [MemoryManager.allocateMemory, hnone, inv.ptype, hex]
      rw [heq]
      exact ⟨inv.ptype, inv.frameGe, inv.noOverflow, inv.wellNumbered, inv.keysNodup,
        inv.recNodup, inv.recOwn, inv.owned, inv.recSum, inv.sumEq⟩
    · rw [allocateMemory_paging_success mm pid name sz now hnone inv.ptype hex]
      have hnd : (chosenFrames mm sz).Nodup := chosenFrames_nodup mm sz inv.wellNumbered
      have hch := chosenFrames_mem_opt mm sz inv.wellNumbered
      have hlen : (chosenFrames mm sz).length = pagesFor mm sz :=
        chosenFrames_length mm sz hex
      have hmle : clampMemorySize mm sz ≤ mm.maxMemPerProcess := clampMemorySize_le mm sz
      have hassigned := frameSizeFor_sum (clampMemorySize mm sz) mm.memPerFrame
        inv.frameGe (by have := inv.noOverflow; omega)
      have hzero : ((List.range (chosenFrames mm sz).length).map
          (fun k => frameSizeFor (0 + k) (pagesFor mm sz) (clampMemorySize mm sz)
            mm.memPerFrame)).sum = clampMemorySize mm sz := by
        rw [hlen]
        rw [show (fun k => frameSizeFor (0 + k) (pagesFor mm sz) (clampMemorySize mm sz)
              mm.memPerFrame) = (fun k => frameSizeFor k (pagesFor mm sz)
              (clampMemorySize mm sz) mm.memPerFrame) from
          funext (fun k => by rw [Nat.zero_add])]
        exact hassigned
      have hdisj : ∀ e ∈ mm.processMemoryMap, ∀ n ∈ e.2.frameNumbers,
          n ∉ chosenFrames mm sz := by
        intro e he n hn hmemc
        obtain ⟨fr, hs, hnf, -⟩ := inv.recOwn e he n hn
        obtain ⟨fr2, hs2, hfree2⟩ := hch n hmemc
        rw [hs] at hs2
        rw [Option.some.inj hs2] at hnf
        rw [hfree2] at hnf
        simp at hnf
      have hnotmemkeys : pid ∉ mm.processMemoryMap.map (fun e => e.1) := by
        intro hmem
        obtain ⟨e, he, hepid⟩ := List.mem_map.mp hmem
        exact mapFind?_none_keys mm.processMemoryMap pid hnone e he hepid
      refine ⟨inv.ptype, inv.frameGe, inv.noOverflow, ?_, ?_, ?_, ?_, ?_, ?_, ?_⟩
      · show FramesWellNumbered (markFrames mm.frames (chosenFrames mm sz) pid name
          (pagesFor mm sz) (clampMemorySize mm sz) mm.memPerFrame now)
        unfold markFrames
        exact framesWellNumbered_of_pointwise mm.frames _
          (markFramesAux_length _ _ _ _ _ _ _ _ _)
          (markFramesAux_frameNumber _ _ _ _ _ _ _ _ _)
          inv.wellNumbered
      · show ((mm.processMemoryMap ++ [(pid, pagingMemInfo mm pid name sz now)]).map
          (fun e => e.1)).Nodup
        rw [List.map_append]
        apply List.Nodup.append inv.keysNodup (by simp)
        intro a ha hb
        have : a = pid := by simpa using hb
        rw [this] at ha
        exact hnotmemkeys ha
      · intro e he
        rcases List.mem_append.mp he with he2 | he2
        · exact inv.recNodup e he2
        · have : e = (pid, pagingMemInfo mm pid name sz now) := by simpa using he2
          rw [this]
          exact hnd
      · intro e he n hn
        rcases List.mem_append.mp he with he2 | he2
        · obtain ⟨fr, hs, hnf, hpidf⟩ := inv.recOwn e he2 n hn
          refine ⟨fr, ?_, hnf, hpidf⟩
          show (markFrames mm.frames (chosenFrames mm sz) pid name (pagesFor mm sz)
            (clampMemorySize mm sz) mm.memPerFrame now)[n]? = some fr
          unfold markFrames
          rw [markFramesAux_getElem_not_mem _ _ _ _ _ _ _ _ _ _
            (hdisj e he2 n hn)]
          exact hs
        · have hee : e = (pid, pagingMemInfo mm pid name sz now) := by simpa using he2
          subst hee
          have hn2 : n ∈ chosenFrames mm sz := hn
          obtain ⟨fr, hs, hfree⟩ := hch n hn2
          obtain ⟨k, hk, hkeq, hval⟩ := markFramesAux_getElem_mem mm.frames
            (chosenFrames mm sz) 0 pid name (pagesFor mm sz) (clampMemorySize mm sz)
            mm.memPerFrame now hnd n hn2
          refine ⟨markedFrame pid name
            (frameSizeFor (0 + k) (pagesFor mm sz) (clampMemorySize mm sz)
              mm.memPerFrame) now fr, ?_, rfl, rfl⟩
          show (markFrames mm.frames (chosenFrames mm sz) pid name (pagesFor mm sz)
            (clampMemorySize mm sz) mm.memPerFrame now)[n]? = _
          unfold markFrames
          rw [hval, hs]
          rfl
      · intro n fr hsome hnf
        by_cases hn : n ∈ chosenFrames mm sz
        · refine ⟨(pid, pagingMemInfo mm pid name sz now), ?_, hn⟩
          exact List.mem_append.mpr (Or.inr (by simp))
        · have heqn : (markFrames mm.frames (chosenFrames mm sz) pid name
              (pagesFor mm sz) (clampMemorySize mm sz) mm.memPerFrame now)[n]? =
              mm.frames[n]? := by
            unfold markFrames
            exact markFramesAux_getElem_not_mem _ _ _ _ _ _ _ _ _ _ hn
          have hsome2 : mm.frames[n]? = some fr := by
            rw [← heqn]
            exact hsome
          obtain ⟨e, he, hein⟩ := inv.owned n fr hsome2 hnf
          exact ⟨e, List.mem_append.mpr (Or.inl he), hein⟩
      · intro e he
        rcases List.mem_append.mp he with he2 | he2
        · have hcong : e.2.frameNumbers.map (fun n => frameSizeAt
              (markFrames mm.frames (chosenFrames mm sz) pid name (pagesFor mm sz)
                (clampMemorySize mm sz) mm.memPerFrame now) n) =
              e.2.frameNumbers.map (fun n => frameSizeAt mm.frames n) := by
            apply List.map_congr_left
            intro n hn
            unfold frameSizeAt markFrames
            rw [markFramesAux_getElem_not_mem _ _ _ _ _ _ _ _ _ _ (hdisj e he2 n hn)]
          show (e.2.frameNumbers.map (fun n => frameSizeAt
            (markFrames mm.frames (chosenFrames mm sz) pid name (pagesFor mm sz)
              (clampMemorySize mm sz) mm.memPerFrame now) n)).sum = e.2.memoryRequired
          rw [hcong]
          exact inv.recSum e he2
        · have hee : e = (pid, pagingMemInfo mm pid name sz now) := by simpa using he2
          subst hee
          show ((chosenFrames mm sz).map (fun n => frameSizeAt
            (markFrames mm.frames (chosenFrames mm sz) pid name (pagesFor mm sz)
              (clampMemorySize mm sz) mm.memPerFrame now) n)).sum =
            clampMemorySize mm sz
          unfold markFrames
          rw [markFramesAux_chosen_sizes mm.frames (chosenFrames mm sz) 0 pid name
            (pagesFor mm sz) (clampMemorySize mm sz) mm.memPerFrame now hnd hch]
          exact hzero
      · show nonFreeSizeSum (markFrames mm.frames (chosenFrames mm sz) pid name
          (pagesFor mm sz) (clampMemorySize mm sz) mm.memPerFrame now) =
          ((mm.processMemoryMap ++ [(pid, pagingMemInfo mm pid name sz now)]).map
            (fun e => e.2.memoryRequired)).sum
        unfold markFrames
        rw [markFramesAux_sum mm.frames (chosenFrames mm sz) 0 pid name
          (pagesFor mm sz) (clampMemorySize mm sz) mm.memPerFrame now hnd hch]
        rw [hzero, inv.sumEq, List.map_append, List.sum_append]
        simp [pagingMemInfo]

theorem pagedInv_dealloc (mm : MemoryManager) (pid : Int) (inv : PagedInv mm) :
    PagedInv (mm.deallocateMemory pid).2 := by
  cases hfind : mapFind? mm.processMemoryMap pid with
  | none =>
      have heq : (mm.deallocateMemory pid).2 = mm := by
        simp [MemoryManager.deallocateMemory, hfind]
      rw [heq]
      exact inv
  | some r =>
      rw [deallocateMemory_eq_paging mm pid r hfind inv.ptype]
      have hmem : (pid, r) ∈ mm.processMemoryMap := mapFind?_some_mem _ _ _ hfind
      have hndr : r.frameNumbers.Nodup := inv.recNodup (pid, r) hmem
      have hown : ∀ n ∈ r.frameNumbers,
          ∃ fr, mm.frames[n]? = some fr ∧ fr.isFree = false ∧ fr.processID = pid :=
        inv.recOwn (pid, r) hmem
      have hns : ∀ n ∈ r.frameNumbers,
          ∃ fr, mm.frames[n]? = some fr ∧ fr.isFree = false := by
        intro n hn
        obtain ⟨fr, h1, h2, -⟩ := hown n hn
        exact ⟨fr, h1, h2⟩
      obtain ⟨-, -, -, hMap, hType, -, -, hFrm, -, hMaxP, -⟩ :=
        freeFramesLoop_fields mm r.frameNumbers
      refine ⟨?_, ?_, ?_, ?_, ?_, ?_, ?_, ?_, ?_, ?_⟩
      · show (freeFramesLoop mm r.frameNumbers).allocationType = AllocationType.PAGING
        rw [hType]
        exact inv.ptype
      · show 1 ≤ (freeFramesLoop mm r.frameNumbers).memPerFrame
        rw [hFrm]
        exact inv.frameGe
      · show (freeFramesLoop mm r.frameNumbers).maxMemPerProcess +
            (freeFramesLoop mm r.frameNumbers).memPerFrame ≤ W64
        rw [hFrm, hMaxP]
        exact inv.noOverflow
      · show FramesWellNumbered (freeFramesLoop mm r.frameNumbers).frames
        exact framesWellNumbered_of_pointwise mm.frames _
          (freeFramesLoop_length mm _) (freeFramesLoop_frameNumber mm _)
          inv.wellNumbered
      · show ((mapErase (freeFramesLoop mm r.frameNumbers).processMemoryMap pid).map
          (fun e => e.1)).Nodup
        rw [hMap]
        exact mapErase_keys_nodup _ _ inv.keysNodup
      · intro e he
        have he2 : e ∈ mapErase mm.processMemoryMap pid := by
          rw [← hMap]
          exact he
        exact inv.recNodup e (mapErase_mem _ _ e he2)
      · intro e he n hn
        have he2 : e ∈ mapErase mm.processMemoryMap pid := by
          rw [← hMap]
          exact he
        obtain ⟨hel, hene⟩ := mapErase_mem_ne mm.processMemoryMap pid e he2
        obtain ⟨fr, hs, hnf, hpidf⟩ := inv.recOwn e hel n hn
        have hnR : n ∉ r.frameNumbers := by
          intro hnr
          obtain ⟨fr2, hs2, -, hpid2⟩ := hown n hnr
          rw [hs] at hs2
          rw [← Option.some.inj hs2] at hpid2
          rw [hpidf] at hpid2
          exact hene hpid2
        refine ⟨fr, ?_, hnf, hpidf⟩
        show (freeFramesLoop mm r.frameNumbers).frames[n]? = some fr
        rw [freeFramesLoop_getElem_not_mem mm r.frameNumbers n hnR]
        exact hs
      · intro n fr2 hsome2 hnf2
        by_cases hnr : n ∈ r.frameNumbers
        · exfalso
          have hmem2 := freeFramesLoop_getElem_mem mm r.frameNumbers hndr n hnr
          have hsome3 : (freeFramesLoop mm r.frameNumbers).frames[n]? = some fr2 :=
            hsome2
          rw [hmem2] at hsome3
          cases hmf : mm.frames[n]? with
          | none =>
              rw [hmf] at hsome3
              simp at hsome3
          | some fr0 =>
              rw [hmf] at hsome3
              have : fr2 = freeFrame fr0 := by
                have := Option.some.inj hsome3
                rw [← this]
              rw [this] at hnf2
              simp [freeFrame] at hnf2
        · have hsome3 : mm.frames[n]? = some fr2 := by
            rw [← freeFramesLoop_getElem_not_mem mm r.frameNumbers n hnr]
            exact hsome2
          obtain ⟨e, hel, hein⟩ := inv.owned n fr2 hsome3 hnf2
          have hene : e.1 ≠ pid := by
            intro hcon
            have heq : e = (pid, r) :=
              keys_nodup_inj mm.processMemoryMap inv.keysNodup e hel (pid, r) hmem
                (by rw [hcon])
            rw [heq] at hein
            exact hnr hein
          refine ⟨e, ?_, hein⟩
          show e ∈ mapErase (freeFramesLoop mm r.frameNumbers).processMemoryMap pid
          rw [hMap]
          exact mem_mapErase_of_ne _ _ e hel hene
      · intro e he
        have he2 : e ∈ mapErase mm.processMemoryMap pid := by
          rw [← hMap]
          exact he
        obtain ⟨hel, hene⟩ := mapErase_mem_ne mm.processMemoryMap pid e he2
        have hdisjE : ∀ n ∈ e.2.frameNumbers, n ∉ r.frameNumbers := by
          intro n hn hnr
          obtain ⟨fr, hs, -, hpidf⟩ := inv.recOwn e hel n hn
          obtain ⟨fr2, hs2, -, hpid2⟩ := hown n hnr
          rw [hs] at hs2
          rw [← Option.some.inj hs2] at hpid2
          rw [hpidf] at hpid2
          exact hene hpid2
        show (e.2.frameNumbers.map (fun n => frameSizeAt
          (freeFramesLoop mm r.frameNumbers).frames n)).sum = e.2.memoryRequired
        rw [List.map_congr_left (fun n hn => by
          unfold frameSizeAt
          rw [freeFramesLoop_getElem_not_mem mm r.frameNumbers n (hdisjE n hn)])]
        exact inv.recSum e hel
      · have hloop := freeFramesLoop_sum mm r.frameNumbers hndr hns
        have hrsum : (r.frameNumbers.map (fun n => frameSizeAt mm.frames n)).sum =
            r.memoryRequired := inv.recSum (pid, r) hmem
        have herase := mapErase_sum mm.processMemoryMap pid r hfind inv.keysNodup
        have hglob := inv.sumEq
        show nonFreeSizeSum (freeFramesLoop mm r.frameNumbers).frames =
          ((mapErase (freeFramesLoop mm r.frameNumbers).processMemoryMap pid).map
            (fun e => e.2.memoryRequired)).sum
        rw [hMap]
        omega

/-! ## Claim C1: reachable paged states -/

/-- Manager states reachable by allocateMemory / deallocateMemory calls
from a freshly constructed paged manager.  The two side conditions on the
construction hold for every configuration the program accepts
(`mem-per-frame >= 1` is validated, and all sizes are `size_t`). -/
inductive Reachable : MemoryManager → Prop where
  | init (maxMem memFrame minMem maxMemProc : Nat)
      (strategy : AllocationStrategy) (hf : 1 ≤ memFrame)
      (hof : maxMemProc + memFrame ≤ W64) :
      Reachable (MemoryManager.create maxMem memFrame minMem maxMemProc
        AllocationType.PAGING strategy)
  | allocStep (mm : MemoryManager) (pid : Int) (name : String) (sz now : Nat)
      (h : Reachable mm) : Reachable (mm.allocateMemory pid name sz now).2
  | deallocStep (mm : MemoryManager) (pid : Int) (h : Reachable mm) :
      Reachable (mm.deallocateMemory pid).2

theorem reachable_pagedInv (mm : MemoryManager) (h : Reachable mm) :
    PagedInv mm := by
  induction h with
  | init maxMem memFrame minMem maxMemProc strategy hf hof =>
      exact pagedInv_create maxMem memFrame minMem maxMemProc strategy hf hof
  | allocStep mm pid name sz now _ ih => exact pagedInv_alloc mm pid name sz now ih
  | deallocStep mm pid _ ih => exact pagedInv_dealloc mm pid ih

/-- C1 (amended): in paged mode, after any sequence of allocateMemory and
deallocateMemory calls, the sum of `frame.size` over all non-free frames
equals the sum of `memoryRequired` (the clamped request) over all records
in processMemoryMap — not the sum of `memoryAllocated`, which counts whole
frames — and every non-free frame is owned by exactly one process
record. -/
theorem paged_nonfree_sum_and_unique_ownership (mm : MemoryManager)
    (h : Reachable mm) :
    nonFreeSizeSum mm.frames =
      (mm.processMemoryMap.map (fun e => e.2.memoryRequired)).sum ∧
    ∀ (n : Nat) (fr : MemoryFrame), mm.frames[n]? = some fr →
      fr.isFree = false →
      ∃! e : Int × ProcessMemoryInfo,
        e ∈ mm.processMemoryMap ∧ n ∈ e.2.frameNumbers := by
  have inv := reachable_pagedInv mm h
  refine ⟨inv.sumEq, ?_⟩
  intro n fr hsome hnf
  obtain ⟨e, hemem, hein⟩ := inv.owned n fr hsome hnf
  refine ⟨e, ⟨hemem, hein⟩, ?_⟩
  intro e2 he2
  obtain ⟨h2mem, h2in⟩ := he2
  obtain ⟨fr1, hs1, -, hp1⟩ := inv.recOwn e hemem n hein
  obtain ⟨fr2, hs2, -, hp2⟩ := inv.recOwn e2 h2mem n h2in
  rw [hs1] at hs2
  rw [← Option.some.inj hs2] at hp2
  exact keys_nodup_inj mm.processMemoryMap inv.keysNodup e2 h2mem e hemem
    (by rw [hp2] at hp1; rw [← hp1])

/-- Witness manager for C1: one allocation performed on a fresh paged
manager. -/
def c1WitnessMM : MemoryManager :=
  ((MemoryManager.create 64 16 4 64 AllocationType.PAGING
      AllocationStrategy.FIRST_FIT).allocateMemory 1 "p" 20 0).2

theorem paged_nonfree_sum_and_unique_ownership_witness :
    nonFreeSizeSum c1WitnessMM.frames =
      (c1WitnessMM.processMemoryMap.map (fun e => e.2.memoryRequired)).sum ∧
    ∀ (n : Nat) (fr : MemoryFrame), c1WitnessMM.frames[n]? = some fr →
      fr.isFree = false →
      ∃! e : Int × ProcessMemoryInfo,
        e ∈ c1WitnessMM.processMemoryMap ∧ n ∈ e.2.frameNumbers :=
  paged_nonfree_sum_and_unique_ownership c1WitnessMM
    (Reachable.allocStep _ 1 "p" 20 0
      (Reachable.init 64 16 4 64 AllocationStrategy.FIRST_FIT (by decide) (by decide)))

/-- Counterexample to C1 as stated: after a reachable single allocation of
20 KB with 16 KB frames, the non-free frame sizes sum to 20 while the
`memoryAllocated` fields sum to 32 (two whole frames). -/
theorem paged_nonfree_sum_counterexample :
    Reachable c1WitnessMM ∧
    nonFreeSizeSum c1WitnessMM.frames = 20 ∧
    (c1WitnessMM.processMemoryMap.map (fun e => e.2.memoryAllocated)).sum = 32 ∧
    ¬ nonFreeSizeSum c1WitnessMM.frames =
        (c1WitnessMM.processMemoryMap.map (fun e => e.2.memoryAllocated)).sum :=
  ⟨Reachable.allocStep _ 1 "p" 20 0
      (Reachable.init 64 16 4 64 AllocationStrategy.FIRST_FIT (by decide) (by decide)),
    by decide, by decide, by decide⟩

/-! ## Process model (src/Process.h)

C++ strings are modeled at the character-list level so that every parsing
helper is structurally recursive.  `rand()` values are passed in as
explicit `Nat` arguments; formatted timestamps are passed in as `String`
arguments.  Writes to log files mirror the in-memory `logs` vector and are
not modeled separately. -/

/-- The characters `std::isspace` accepts in the default locale. -/
def isWsChar (c : Char) : Bool :=
  c == ' ' || c == '\t' || c == '\n' || c == Char.ofNat 11 || c == Char.ofNat 12 || c == '\r'

/-- The characters trimmed by the `find_first_not_of(" \t")` idiom. -/
def isTrimChar (c : Char) : Bool :=
  c == ' ' || c == '\t'

/-- `erase(0, find_first_not_of(" \t"))` followed by
`erase(find_last_not_of(" \t") + 1)`. -/
def cppTrim (s : String) : String :=
  String.mk (((s.data.dropWhile isTrimChar).reverse.dropWhile isTrimChar).reverse)

/-- Whitespace-separated extraction as by repeated `iss >> tok`
(tokens are the maximal nonempty non-whitespace runs). -/
def splitWsAux : List Char → List Char → List String
  | [], acc => if acc.isEmpty then [] else [String.mk acc.reverse]
  | c :: rest, acc =>
    if isWsChar c then
      if acc.isEmpty then splitWsAux rest []
      else String.mk acc.reverse :: splitWsAux rest []
    else splitWsAux rest (c :: acc)

def tokenize (s : String) : List String :=
  splitWsAux s.data []

def takeDigits (l : List Char) : List Char :=
  l.takeWhile (fun c => c.isDigit)

def digitsVal (l : List Char) : Nat :=
  l.foldl (fun acc c => acc * 10 + (c.toNat - 48)) 0

/-- `std::stoi`: skip leading whitespace, optional sign, longest digit run;
`none` models a thrown `invalid_argument` (no digits) or `out_of_range`
(value outside `int`). -/
def cppStoi (s : String) : Option Int :=
  match s.data.dropWhile isWsChar with
  | '-' :: rest =>
    let ds := takeDigits rest
    if ds.isEmpty then none
    else if 2147483648 < digitsVal ds then none
    else some (-(digitsVal ds : Int))
  | '+' :: rest =>
    let ds := takeDigits rest
    if ds.isEmpty then none
    else if 2147483647 < digitsVal ds then none
    else some ((digitsVal ds : Int))
  | l =>
    let ds := takeDigits l
    if ds.isEmpty then none
    else if 2147483647 < digitsVal ds then none
    else some ((digitsVal ds : Int))

/-- `iss >> (int)`: 0 on extraction failure (C++11), clamped to the `int`
range on overflow. -/
def cppReadInt (tok : String) : Int :=
  match tok.data with
  | '-' :: rest =>
    let ds := takeDigits rest
    if ds.isEmpty then 0 else max (-2147483648) (-(digitsVal ds : Int))
  | '+' :: rest =>
    let ds := takeDigits rest
    if ds.isEmpty then 0 else min 2147483647 ((digitsVal ds : Int))
  | l =>
    let ds := takeDigits l
    if ds.isEmpty then 0 else min 2147483647 ((digitsVal ds : Int))

/-- `iss >> (uint16_t)`: 0 on extraction failure; out-of-range values
(including negative ones, which wrap modulo `2^64` far above 65535) store
the type maximum. -/
def cppReadU16 (tok : String) : Nat :=
  match tok.data with
  | '-' :: rest =>
    let ds := takeDigits rest
    if ds.isEmpty then 0 else if digitsVal ds = 0 then 0 else 65535
  | '+' :: rest =>
    let ds := takeDigits rest
    if ds.isEmpty then 0 else min 65535 (digitsVal ds)
  | l =>
    let ds := takeDigits l
    if ds.isEmpty then 0 else min 65535 (digitsVal ds)

def listIsPre : List Char → List Char → Bool
  | [], _ => true
  | _ :: _, [] => false
  | a :: as, b :: bs => a == b && listIsPre as bs

/-- `s.find(pre) == 0`. -/
def strStarts (s pre : String) : Bool :=
  listIsPre pre.data s.data

/-- The substring following the first occurrence of `c`
(`substr(find(c) + 1)`), or `none` when `find` returns `npos`. -/
def afterChar? (s : String) (c : Char) : Option String :=
  match s.data.dropWhile (fun d => d != c) with
  | [] => none
  | _ :: rest => some (String.mk rest)

/-- What `std::getline(iss, out)` reads after `iss >> command`: everything
after the first token, separator characters included. -/
def afterFirstToken (s : String) : String :=
  String.mk ((s.data.dropWhile isWsChar).dropWhile (fun c => !isWsChar c))

def strMapFind? (m : List (String × Nat)) (k : String) : Option Nat :=
  (m.find? (fun e => e.1 == k)).map (fun e => e.2)

/-- Insertion into a `std::map<std::string, uint16_t>`; the list is kept
sorted by key, matching the map's iteration order. -/
def mapPut : List (String × Nat) → String → Nat → List (String × Nat)
  | [], k, v => [(k, v)]
  | e :: rest, k, v =>
    if k < e.1 then (k, v) :: e :: rest
    else if k = e.1 then (k, v) :: rest
    else e :: mapPut rest k v

/-- `Process::getValue`: returns `variables[key]`, default-inserting 0
first when the key is absent. -/
def getValue (vars : List (String × Nat)) (k : String) : Nat × List (String × Nat) :=
  match strMapFind? vars k with
  | some v => (v, vars)
  | none => (0, mapPut vars k 0)

def frAux (patd repld : List Char) : List Char → List Char
  | [] => []
  | c :: rest =>
    if listIsPre patd (c :: rest) then repld ++ (c :: rest).drop patd.length
    else c :: frAux patd repld rest

/-- Replace the first occurrence of `pat` in `s` by `repl`
(`output.replace(output.find(pat), pat.length(), repl)`); an empty pattern
is found at position 0, so `repl` is prepended. -/
def firstReplace (s pat repl : String) : String :=
  if pat.data.isEmpty then String.mk (repl.data ++ s.data) else String.mk (frAux pat.data repl.data s.data)

/-- The variable-substitution loop of the custom `PRINT` handler: one
first-occurrence replacement per map entry, in key order. -/
def printSubst (vars : List (String × Nat)) (out : String) : String :=
  vars.foldl (fun acc e => firstReplace acc e.1 (toString e.2)) out

/-- `str.erase(std::remove(begin, end, c), end)`. -/
def stripChar (s : String) (c : Char) : String :=
  String.mk (s.data.filter (fun d => d != c))

/-- `struct Page` (Process.h). -/
structure Page where
  pageNumber : Int
  isInMemory : Bool
  frameNumber : Int
  isValid : Bool
deriving Repr, DecidableEq

def Page.init (num : Int) : Page :=
  { pageNumber := num, isInMemory := false, frameNumber := -1, isValid := false }

inductive ProcessState where
  | READY
  | RUNNING
  | WAITING
  | FINISHED
deriving Repr, DecidableEq

/-- `class Process` (Process.h).  `int` counters are `Int`; `uint16_t`
map values are `Nat` kept below 65536 by explicit `% 65536` where the
arithmetic can exceed it. -/
structure Process where
  processName : String
  processID : Int
  currentState : ProcessState
  totalInstructions : Int
  instructionsExecuted : Int
  remainingInstructions : Int
  instructions : List String
  registerA : Int
  registerB : Int
  result : Int
  vars : List (String × Nat)  -- `variables` in the source; renamed (reserved word)
  memory : List (String × Nat)
  sleepCounter : Int
  isCustom : Bool
  arrivalTime : String
  startTime : String
  finishTime : String
  assignedCore : Int
  logFilePath : String
  logs : List String
  pages : List Page
  memoryRequired : Int
  numPages : Int
deriving Repr, DecidableEq

/-- The manual/auto constructor (instructions generated separately). -/
def Process.create (name : String) (id instructionCount : Int) (arrival : String) : Process :=
  { processName := name, processID := id, currentState := ProcessState.READY,
    totalInstructions := instructionCount, instructionsExecuted := 0,
    remainingInstructions := instructionCount, instructions := [],
    registerA := 0, registerB := 0, result := 0, vars := [], memory := [],
    sleepCounter := 0, isCustom := false, arrivalTime := arrival,
    startTime := "", finishTime := "", assignedCore := -1, logFilePath := "",
    logs := [], pages := [], memoryRequired := 0, numPages := 0 }

def Process.setState (p : Process) (newState : ProcessState) : Process :=
  { p with currentState := newState }

def Process.setStartTime (p : Process) (time : String) : Process :=
  { p with startTime := time }

def Process.setFinishTime (p : Process) (time : String) : Process :=
  { p with finishTime := time }

def Process.setAssignedCore (p : Process) (core : Int) : Process :=
  { p with assignedCore := core }

def Process.setLogFilePath (p : Process) (path : String) : Process :=
  { p with logFilePath := path }

/-- `Process::addLog` (the file append mirrors the vector). -/
def Process.addLog (p : Process) (timeStr message : String) : Process :=
  { p with logs := p.logs ++ [timeStr ++ " " ++ message] }

/-- `Process::printCommand`. -/
def Process.printCommand (p : Process) (timeStr : String) : Process :=
  { p with logs := p.logs ++
      ["(" ++ timeStr ++ ") Core:" ++ toString p.assignedCore ++ " \"" ++
        ("Hello world from " ++ p.processName ++ "!") ++ "\""] }

/-- `Process::getCurrentInstruction` (the `int`-vs-`size_t` comparison
sends a negative index above the size). -/
def Process.getCurrentInstruction (p : Process) : String :=
  if 0 ≤ p.instructionsExecuted ∧ p.instructionsExecuted < (p.instructions.length : Int)
  then p.instructions.getD p.instructionsExecuted.toNat "" else ""

/-- `Process::isFinished`. -/
def Process.isFinished (p : Process) : Bool :=
  decide (p.remainingInstructions ≤ 0) || decide (p.instructionsExecuted < 0) ||
    decide ((p.instructions.length : Int) ≤ p.instructionsExecuted)

/-- The shared tail of `executeInstruction`:
`instructionsExecuted++; remainingInstructions--`. -/
def Process.advance (p : Process) : Process :=
  { p with instructionsExecuted := p.instructionsExecuted + 1,
           remainingInstructions := p.remainingInstructions - 1 }

/-- The `FOR` expansion loop: `loopCount` times,
`instructionsExecuted++` then `insert(begin() + instructionsExecuted, "PRINT")`. -/
def forExpand : List String → Int → Nat → List String × Int
  | instrs, exec, 0 => (instrs, exec)
  | instrs, exec, n + 1 =>
    forExpand (listInsertIdx instrs (exec + 1).toNat "PRINT") (exec + 1) n

/-- `registerA = v`. -/
def Process.setRegisterA (p : Process) (v : Int) : Process :=
  { p with registerA := v }

/-- Assignment to the `variables` map. -/
def Process.setVars (p : Process) (v : List (String × Nat)) : Process :=
  { p with vars := v }

/-- Assignment to the simulated `memory` map. -/
def Process.setMemoryMap (p : Process) (m : List (String × Nat)) : Process :=
  { p with memory := m }

/-- `sleepCounter = v`. -/
def Process.setSleep (p : Process) (v : Int) : Process :=
  { p with sleepCounter := v }

/-- The state left by the `FOR` expansion (new instruction vector and new
`instructionsExecuted`); the branch returns without the shared tail. -/
def Process.applyFor (p : Process) (res : List String × Int) : Process :=
  { p with instructions := res.1, instructionsExecuted := res.2 }

/-- `Process::executeInstruction`.  `r` is the value `rand()` returns on
this call (each branch samples at most once); `none` models a thrown
`std::stoi` exception. -/
def Process.executeInstruction (p : Process) (r : Nat) (timeStr : String) : Option Process :=
  if 0 < p.sleepCounter then
    some (p.setSleep (p.sleepCounter - 1))
  else if p.instructionsExecuted < 0 ∨ (p.instructions.length : Int) ≤ p.instructionsExecuted
      ∨ p.remainingInstructions ≤ 0 then
    some p
  else
    let instr := p.instructions.getD p.instructionsExecuted.toNat ""
    if p.isCustom = false then
      if strStarts instr "VAR" then
        match afterChar? instr '=' with
        | none => some (p.advance)
        | some sub =>
          match cppStoi sub with
          | none => none
          | some v => some ((p.setRegisterA v).advance)
      else if strStarts instr "ADD" then
        match afterChar? instr ' ' with
        | none => some (p.advance)
        | some sub =>
          match cppStoi sub with
          | none => none
          | some v => some ((p.setRegisterA (p.registerA + v)).advance)
      else if strStarts instr "PRINT" then
        some ((p.printCommand timeStr).advance)
      else if strStarts instr "DECLARE" then
        some ((p.setVars (mapPut p.vars "x" (r % 65536))).advance)
      else if strStarts instr "SUBTRACT" then
        let gv := getValue p.vars "x"
        some ((p.setVars (mapPut gv.2 "x" (gv.1 - r % 10))).advance)
      else if strStarts instr "SLEEP" then
        some ((p.setSleep (1 + ((r : Int) % 3))).advance)
      else if strStarts instr "FOR" then
        let remainingLines : Int := p.totalInstructions - p.instructionsExecuted - 1
        let maxInsert : Int := min remainingLines 3
        let loopCount : Int := 1 + Int.tmod (r : Int) (maxInsert + 1)
        some (p.applyFor (forExpand p.instructions p.instructionsExecuted loopCount.toNat))
      else
        some (p.advance)
    else
      let toks := tokenize instr
      let command := toks.getD 0 ""
      if command = "DECLARE" then
        some ((p.setVars (mapPut p.vars (toks.getD 1 "") (cppReadU16 (toks.getD 2 "")))).advance)
      else if command = "ADD" then
        let g1 := getValue p.vars (toks.getD 2 "")
        let g2 := getValue g1.2 (toks.getD 3 "")
        some ((p.setVars (mapPut g2.2 (toks.getD 1 "") ((g1.1 + g2.1) % 65536))).advance)
      else if command = "SUBTRACT" then
        let g1 := getValue p.vars (toks.getD 2 "")
        let g2 := getValue g1.2 (toks.getD 3 "")
        some ((p.setVars (mapPut g2.2 (toks.getD 1 "") (g1.1 - g2.1))).advance)
      else if command = "SLEEP" then
        some ((p.setSleep (max 1 (cppReadInt (toks.getD 1 "")))).advance)
      else if command = "WRITE" then
        let g := getValue p.vars (toks.getD 2 "")
        some ((((p.setVars g.2).setMemoryMap (mapPut p.memory (toks.getD 1 "") g.1)).addLog timeStr
          ("[WRITE] " ++ toks.getD 1 "" ++ " <- " ++ toString g.1)).advance)
      else if command = "READ" then
        let v := (strMapFind? p.memory (toks.getD 2 "")).getD 0
        some (((p.setVars (mapPut p.vars (toks.getD 1 "") v)).addLog timeStr
          ("[READ] " ++ toks.getD 1 "" ++ " <- " ++ toString v ++
            " (from " ++ toks.getD 2 "" ++ ")")).advance)
      else if command = "PRINT" then
        let output := stripChar (stripChar (printSubst p.vars (afterFirstToken instr)) '"') '+'
        some (((p.addLog timeStr output).printCommand timeStr).advance)
      else
        some (p.advance)

/-- `Process::generateInstructions` (the VAR/PRINT/ADD pattern); `rands i`
is the `rand()` value drawn when instruction `i` is an ADD. -/
def Process.generateInstructions (p : Process) (rands : Nat → Nat) (count : Int) : Process :=
  { p with
    isCustom := false,
    instructions := "VAR X = 0" ::
      (List.range (count - 1).toNat).map (fun j =>
        if (j + 1) % 2 = 1 then "PRINT \"Value from " ++ p.processName ++ "!\""
        else "ADD " ++ toString (rands (j + 1) % 10 + 1)) }

def validCommands : List String :=
  ["PRINT", "ADD", "SUBTRACT", "DECLARE", "SLEEP", "FOR", "WRITE", "READ"]

/-- `Process::generateSpecificInstructions`: trim each raw line, keep the
ones starting with a valid command, log a warning for the others, and set
both totals to the kept count. -/
def Process.generateSpecificInstructions (p : Process) (rawInstructions : List String)
    (timeStr : String) : Process :=
  let trimmed := rawInstructions.map cppTrim
  let keep := trimmed.filter (fun instr => validCommands.any (fun cmd => strStarts instr cmd))
  { p with
    isCustom := true,
    instructions := keep,
    logs := p.logs ++ (trimmed.filter (fun instr =>
        !(validCommands.any (fun cmd => strStarts instr cmd)))).map
      (fun instr => timeStr ++ " " ++ ("Warning: Ignoring unknown instruction: " ++ instr)),
    totalInstructions := (keep.length : Int),
    remainingInstructions := (keep.length : Int) }

/-- The custom-instruction constructor. -/
def Process.createCustom (name : String) (id instructionCount : Int) (arrival : String)
    (customInstructions : List String) (timeStr : String) : Process :=
  ({ Process.create name id instructionCount arrival with
      isCustom := true }).generateSpecificInstructions customInstructions timeStr

/-- `Process::setMemoryRequirement`. -/
def Process.setMemoryRequirement (p : Process) (memKB frameSize : Int) : Process :=
  { p with
    memoryRequired := memKB,
    numPages := Int.tdiv (memKB + frameSize - 1) frameSize,
    pages := (List.range (Int.tdiv (memKB + frameSize - 1) frameSize).toNat).map
      (fun i => Page.init (i : Int)) }

/-! ## Claim C3: executed + remaining = program length -/

theorem listInsertIdx_length {α : Type} (l : List α) (n : Nat) (a : α) :
    (listInsertIdx l n a).length = l.length + 1 := by
  induction l generalizing n with
  | nil => cases n <;> simp [listInsertIdx]
  | cons b rest ih =>
    cases n with
    | zero => simp [listInsertIdx]
    | succ m => simp [listInsertIdx, ih]

theorem forExpand_spec (n : Nat) : ∀ (instrs : List String) (exec : Int),
    (forExpand instrs exec n).1.length = instrs.length + n ∧
    (forExpand instrs exec n).2 = exec + n := by
  induction n with
  | zero => intro instrs exec; simp [forExpand]
  | succ m ih =>
    intro instrs exec
    unfold forExpand
    obtain ⟨h1, h2⟩ := ih (listInsertIdx instrs (exec + 1).toNat "PRINT") (exec + 1)
    refine ⟨?_, ?_⟩
    · rw [h1, listInsertIdx_length]; omega
    · rw [h2]; omega

/-- Every completing `executeInstruction` step preserves the defect
`executed + remaining - |instructions|`. -/
theorem executeInstruction_counts (p : Process) (r : Nat) (t : String) (p' : Process)
    (h : p.executeInstruction r t = some p') :
    p'.instructionsExecuted + p'.remainingInstructions - (p'.instructions.length : Int)
      = p.instructionsExecuted + p.remainingInstructions - (p.instructions.length : Int) := by
  unfold Process.executeInstruction at h
  dsimp only at h
  by_cases h1 : 0 < p.sleepCounter
  · rw [if_pos h1] at h
    injection h with h2
    subst h2
    rfl
  · rw [if_neg h1] at h
    by_cases h2 : p.instructionsExecuted < 0 ∨ (p.instructions.length : Int) ≤ p.instructionsExecuted
        ∨ p.remainingInstructions ≤ 0
    · rw [if_pos h2] at h
      injection h with h3
      subst h3
      rfl
    · rw [if_neg h2] at h
      by_cases h3 : p.isCustom = false
      · rw [if_pos h3] at h
        repeat' split at h
        all_goals try exact Option.noConfusion h
        all_goals injection h with h4
        all_goals subst h4
        all_goals simp only [Process.advance, Process.addLog, Process.printCommand,
          Process.setVars, Process.setRegisterA, Process.setSleep, Process.applyFor]
        all_goals try omega
        rw [(forExpand_spec _ p.instructions p.instructionsExecuted).1,
          (forExpand_spec _ p.instructions p.instructionsExecuted).2]
        push_cast
        ring
      · rw [if_neg h3] at h
        repeat' split at h
        all_goals injection h with h4
        all_goals subst h4
        all_goals simp only [Process.advance, Process.addLog, Process.printCommand,
          Process.setVars, Process.setSleep, Process.setMemoryMap]
        all_goals omega
/-- C3: for every process, auto-generated or custom,
`instructionsExecuted + remainingInstructions = |instructions|` holds
after construction (auto construction uses `count ≥ 1`, which the
validated configuration guarantees via `min-ins ≥ 1`) and is preserved by
every completing `executeInstruction` step, including sleep cycles and
completed FOR expansions. -/
theorem executed_plus_remaining_invariant
    (name arrival timeStr t : String) (id cnt : Int) (rands : Nat → Nat)
    (raw : List String) (p p' : Process) (r : Nat)
    (hcnt : 1 ≤ cnt)
    (hinv : p.instructionsExecuted + p.remainingInstructions = (p.instructions.length : Int))
    (hstep : p.executeInstruction r t = some p') :
    (((Process.create name id cnt arrival).generateInstructions rands cnt).instructionsExecuted
        + ((Process.create name id cnt arrival).generateInstructions rands cnt).remainingInstructions
      = (((Process.create name id cnt arrival).generateInstructions rands cnt).instructions.length : Int)) ∧
    ((Process.createCustom name id cnt arrival raw timeStr).instructionsExecuted
        + (Process.createCustom name id cnt arrival raw timeStr).remainingInstructions
      = ((Process.createCustom name id cnt arrival raw timeStr).instructions.length : Int)) ∧
    (p'.instructionsExecuted + p'.remainingInstructions = (p'.instructions.length : Int)) := by
  refine ⟨?_, ?_, ?_⟩
  · simp only [Process.create, Process.generateInstructions, List.length_cons, List.length_map,
      List.length_range]
    omega
  · simp only [Process.createCustom, Process.create, Process.generateSpecificInstructions]
    omega
  · have hd := executeInstruction_counts p r t p' hstep
    omega

def c3P : Process :=
  Process.createCustom "w" 0 1 "A" ["SLEEP 5"] "T"

def c3P' : Process :=
  { c3P with sleepCounter := 5, instructionsExecuted := 1, remainingInstructions := 0 }

theorem executed_plus_remaining_invariant_witness :
    (((Process.create "w" 0 1 "A").generateInstructions (fun i => i) 1).instructionsExecuted
        + ((Process.create "w" 0 1 "A").generateInstructions (fun i => i) 1).remainingInstructions
      = (((Process.create "w" 0 1 "A").generateInstructions (fun i => i) 1).instructions.length : Int)) ∧
    ((Process.createCustom "w" 0 1 "A" ["SLEEP 5"] "T").instructionsExecuted
        + (Process.createCustom "w" 0 1 "A" ["SLEEP 5"] "T").remainingInstructions
      = ((Process.createCustom "w" 0 1 "A" ["SLEEP 5"] "T").instructions.length : Int)) ∧
    (c3P'.instructionsExecuted + c3P'.remainingInstructions = (c3P'.instructions.length : Int)) :=
  executed_plus_remaining_invariant "w" "A" "T" "T" 0 1 (fun i => i) ["SLEEP 5"] c3P c3P' 0
    (by decide) (by decide) (by decide)

/-! ## Scheduler model (src/Scheduler.h, src/Config.h)

`Process*` pointers are modeled as indices (`Nat`) into an explicit heap
list owned by the scheduler; the queues hold indices, so pointer aliasing
and pointer-equality erasure are preserved.  Threading is serialized: one
call of `coreCycleStep` is the body of `cpuExecutionLoop` for one core. -/

/-- `struct SystemConfig` (Config.h). -/
structure SystemConfig where
  numCPUs : Int
  schedulerType : String
  quantumCycles : Int
  batchProcessFreq : Int
  minInstructions : Int
  maxInstructions : Int
  delayPerExec : Int
  maxOverallMem : Nat
  memPerFrame : Nat
  minMemPerProc : Nat
  maxMemPerProc : Nat
deriving Repr, DecidableEq

/-- `class CPUCore`; `currentProcess` is a nullable pointer. -/
structure CPUCore where
  coreID : Int
  currentProcess : Option Nat
  isIdle : Bool
  executedCycles : Int
  delayCyclesRemaining : Int
deriving Repr, DecidableEq

def CPUCore.init (id : Int) : CPUCore :=
  { coreID := id, currentProcess := none, isIdle := true,
    executedCycles := 0, delayCyclesRemaining := 0 }

/-- `CPUCore::assignProcess` (also mutates the pointed-to process). -/
def CPUCore.assignProcess (core : CPUCore) (heap : List Process) (pp : Option Nat) :
    CPUCore × List Process :=
  ({ core with
     currentProcess := pp,
     isIdle := false,
     executedCycles := 0,
     delayCyclesRemaining := 0 },
   match pp with
   | none => heap
   | some a => listModify heap a
       (fun q => (q.setAssignedCore core.coreID).setState ProcessState.RUNNING))

/-- `CPUCore::releaseProcess`. -/
def CPUCore.releaseProcess (core : CPUCore) (heap : List Process) :
    CPUCore × List Process :=
  ({ core with
     currentProcess := none,
     isIdle := true,
     executedCycles := 0,
     delayCyclesRemaining := 0 },
   match core.currentProcess with
   | none => heap
   | some a => listModify heap a (fun q => q.setAssignedCore (-1)))

/-- `CPUCore::executeCycle`; `none` propagates a thrown `std::stoi`.  A
dangling index (`heap[a]? = none`) cannot arise in a reachable state and
leaves everything unchanged. -/
def CPUCore.executeCycle (core : CPUCore) (heap : List Process) (delayPerExec : Int)
    (r : Nat) (t : String) : Option (CPUCore × List Process) :=
  match core.currentProcess with
  | none => some (core, heap)
  | some a =>
    if core.isIdle then some (core, heap)
    else if 0 < core.delayCyclesRemaining then
      some ({ core with delayCyclesRemaining := core.delayCyclesRemaining - 1 }, heap)
    else
      match heap[a]? with
      | none => some (core, heap)
      | some p =>
        match p.executeInstruction r t with
        | none => none
        | some p1 =>
          some ({ core with
                  executedCycles := core.executedCycles + 1,
                  delayCyclesRemaining :=
                    if p1.isFinished = false ∧ 0 < delayPerExec then delayPerExec
                    else core.delayCyclesRemaining },
                listModify heap a (fun _ => p1))

/-- `CPUCore::processFinished`. -/
def CPUCore.processFinished (core : CPUCore) (heap : List Process) : Bool :=
  match core.currentProcess with
  | none => false
  | some a =>
    match heap[a]? with
    | none => false
    | some p => p.isFinished

/-- `CPUCore::isBusyWaiting`. -/
def CPUCore.isBusyWaiting (core : CPUCore) : Bool :=
  decide (0 < core.delayCyclesRemaining)

/-- `class Scheduler` (threading state and mutexes omitted). -/
structure Scheduler where
  config : SystemConfig
  cpuCores : List CPUCore
  heap : List Process
  readyQueue : List Nat
  runningProcesses : List Nat
  finishedProcesses : List Nat
  isRunning : Bool
  autoGenerateProcesses : Bool
  totalProcessesCreated : Int
  currentCycle : Int
deriving Repr, DecidableEq

/-- `Scheduler::addProcess`. -/
def Scheduler.addProcess (s : Scheduler) (a : Nat) : Scheduler :=
  { s with readyQueue := s.readyQueue ++ [a] }

/-- `Scheduler::moveToFinished` for the core at index `i`. -/
def Scheduler.moveToFinished (s : Scheduler) (i : Nat) (t : String) : Scheduler :=
  match s.cpuCores[i]? with
  | none => s
  | some core =>
    match core.currentProcess with
    | none => s
    | some a =>
      let heap1 := listModify s.heap a
        (fun p => (p.setState ProcessState.FINISHED).setFinishTime t)
      let rel := core.releaseProcess heap1
      { s with
        heap := rel.2,
        finishedProcesses := s.finishedProcesses ++ [a],
        runningProcesses := s.runningProcesses.filter (fun b => b ≠ a),
        cpuCores := listModify s.cpuCores i (fun _ => rel.1) }

/-- `Scheduler::preemptProcess` for the core at index `i` (guarded on the
process not being finished). -/
def Scheduler.preemptProcess (s : Scheduler) (i : Nat) : Scheduler :=
  match s.cpuCores[i]? with
  | none => s
  | some core =>
    match core.currentProcess with
    | none => s
    | some a =>
      match s.heap[a]? with
      | none => s
      | some p =>
        if p.isFinished then s
        else
          let heap1 := listModify s.heap a (fun q => q.setState ProcessState.READY)
          let rel := core.releaseProcess heap1
          { s with
            heap := rel.2,
            runningProcesses := s.runningProcesses.filter (fun b => b ≠ a),
            readyQueue := s.readyQueue ++ [a],
            cpuCores := listModify s.cpuCores i (fun _ => rel.1) }

/-- The per-core body of `Scheduler::cpuExecutionLoop` (lines 399-436):
execute one cycle (the busy-wait and non-busy-wait arms both call
`executeCycle`; the extra work in the non-busy-wait arm only writes the
log file), then retirement, then the Round-Robin preemption check. -/
def Scheduler.coreCycleStep (s : Scheduler) (i : Nat) (r : Nat) (t : String) :
    Option Scheduler :=
  match s.cpuCores[i]? with
  | none => some s
  | some core =>
    if core.isIdle then some s
    else
      let afterExec : Option Scheduler :=
        match core.currentProcess with
        | none => some s
        | some _ =>
          match core.executeCycle s.heap s.config.delayPerExec r t with
          | none => none
          | some cp =>
            some { s with cpuCores := listModify s.cpuCores i (fun _ => cp.1), heap := cp.2 }
      match afterExec with
      | none => none
      | some s1 =>
        match s1.cpuCores[i]? with
        | none => some s1
        | some core1 =>
          if core1.processFinished s1.heap then some (s1.moveToFinished i t)
          else if s1.config.schedulerType = "rr" ∧
              s1.config.quantumCycles ≤ core1.executedCycles then
            some (s1.preemptProcess i)
          else some s1

/-! ## Claims C10 and C2: retirement before preemption; quantum counter -/

theorem executeCycle_currentProcess (core : CPUCore) (heap : List Process)
    (d : Int) (r : Nat) (t : String) (cp : CPUCore × List Process)
    (h : core.executeCycle heap d r t = some cp) :
    cp.1.currentProcess = core.currentProcess := by
  unfold CPUCore.executeCycle at h
  repeat' split at h
  all_goals try exact Option.noConfusion h
  all_goals injection h with h2
  all_goals subst h2
  all_goals rfl

/-- The core state after a non-busy-wait `executeCycle`:
`executedCycles++` and the delay reload for the next instruction. -/
def CPUCore.afterExec (core : CPUCore) (d : Int) (p1 : Process) : CPUCore :=
  { core with
    executedCycles := core.executedCycles + 1,
    delayCyclesRemaining :=
      if p1.isFinished = false ∧ 0 < d then d else core.delayCyclesRemaining }

/-- The shape of a non-busy-wait `executeCycle` on a live core: the
process is stepped in place and the counter advances. -/
theorem executeCycle_spec (core : CPUCore) (heap : List Process) (d : Int)
    (r : Nat) (t : String) (a : Nat) (p p1 : Process)
    (hcp : core.currentProcess = some a) (hidle : core.isIdle = false)
    (hd : core.delayCyclesRemaining ≤ 0) (hheap : heap[a]? = some p)
    (hexec : p.executeInstruction r t = some p1) :
    core.executeCycle heap d r t = some
      (core.afterExec d p1, listModify heap a (fun _ => p1)) := by
  have hd' : ¬ (0 < core.delayCyclesRemaining) := by omega
  unfold CPUCore.executeCycle CPUCore.afterExec
  rw [hcp]
  simp only [hidle, hheap, hexec, if_neg hd', Bool.false_eq_true, if_false]

/-- C10: in each scheduler cycle the retirement check runs before the
Round-Robin preemption check: when the process on a core is Finished
after its cycle, it is appended to the finished list, the ready queue is
untouched (it is never requeued), and the core is released — regardless
of the quantum counter; moreover `preemptProcess` is a no-op on a
finished process. -/
theorem retirement_before_preemption
    (s : Scheduler) (i : Nat) (r : Nat) (t : String) (core core1 : CPUCore)
    (heap1 : List Process) (a : Nat) (p1 : Process)
    (hcore : s.cpuCores[i]? = some core)
    (hidle : core.isIdle = false)
    (hcp : core.currentProcess = some a)
    (hexec : core.executeCycle s.heap s.config.delayPerExec r t = some (core1, heap1))
    (hp1 : heap1[a]? = some p1)
    (hfin : p1.isFinished = true) :
    (∃ s2 : Scheduler,
      s.coreCycleStep i r t = some s2 ∧
      a ∈ s2.finishedProcesses ∧
      s2.readyQueue = s.readyQueue ∧
      (∀ core2, s2.cpuCores[i]? = some core2 →
        core2.isIdle = true ∧ core2.currentProcess = none)) ∧
    (∀ (u : Scheduler) (j b : Nat) (c : CPUCore) (q : Process),
      u.cpuCores[j]? = some c → c.currentProcess = some b → u.heap[b]? = some q →
      q.isFinished = true → u.preemptProcess j = u) := by
  have hcp1 : core1.currentProcess = some a := by
    rw [executeCycle_currentProcess core s.heap s.config.delayPerExec r t (core1, heap1) hexec]
    exact hcp
  have e1 : (listModify s.cpuCores i (fun _ => core1))[i]? = some core1 := by
    rw [listModify_getElem_self, hcore]
    rfl
  have e2 : CPUCore.processFinished core1 heap1 = true := by
    unfold CPUCore.processFinished
    rw [hcp1]
    show (match heap1[a]? with | none => false | some p => p.isFinished) = true
    rw [hp1]
    exact hfin
  constructor
  · have hstep : s.coreCycleStep i r t = some
        (({ s with
            cpuCores := listModify s.cpuCores i (fun _ => core1),
            heap := heap1 } : Scheduler).moveToFinished i t) := by
      unfold Scheduler.coreCycleStep
      rw [hcore]
      simp only [hidle, Bool.false_eq_true, if_false, hcp, hexec, e1, e2, if_true]
    refine ⟨_, hstep, ?_, ?_, ?_⟩
    · unfold Scheduler.moveToFinished
      simp only [e1, hcp1]
      simp
    · unfold Scheduler.moveToFinished
      simp only [e1, hcp1]
    · intro core2 hcore2
      unfold Scheduler.moveToFinished at hcore2
      simp only [e1, hcp1] at hcore2
      rw [listModify_getElem_self, e1] at hcore2
      simp only [Option.map_some, CPUCore.releaseProcess] at hcore2
      injection hcore2 with h2
      subst h2
      exact ⟨rfl, rfl⟩
  · intro u j b c q hc hb hq hqf
    simp only [Scheduler.preemptProcess, hc, hb, hq, hqf, if_true]

def c10Config : SystemConfig :=
  { numCPUs := 1, schedulerType := "rr", quantumCycles := 1, batchProcessFreq := 1,
    minInstructions := 1, maxInstructions := 1, delayPerExec := 0,
    maxOverallMem := 1024, memPerFrame := 16, minMemPerProc := 4, maxMemPerProc := 64 }

def c10P : Process :=
  Process.createCustom "p" 0 0 "A" [] "T"

def c10Core : CPUCore :=
  { coreID := 0, currentProcess := some 0, isIdle := false,
    executedCycles := 0, delayCyclesRemaining := 0 }

def c10Core1 : CPUCore :=
  { coreID := 0, currentProcess := some 0, isIdle := false,
    executedCycles := 1, delayCyclesRemaining := 0 }

def c10S : Scheduler :=
  { config := c10Config, cpuCores := [c10Core], heap := [c10P], readyQueue := [],
    runningProcesses := [0], finishedProcesses := [], isRunning := true,
    autoGenerateProcesses := false, totalProcessesCreated := 1, currentCycle := 0 }

theorem retirement_before_preemption_witness :
    (∃ s2 : Scheduler,
      c10S.coreCycleStep 0 0 "T" = some s2 ∧
      0 ∈ s2.finishedProcesses ∧
      s2.readyQueue = c10S.readyQueue ∧
      (∀ core2, s2.cpuCores[0]? = some core2 →
        core2.isIdle = true ∧ core2.currentProcess = none)) ∧
    (∀ (u : Scheduler) (j b : Nat) (c : CPUCore) (q : Process),
      u.cpuCores[j]? = some c → c.currentProcess = some b → u.heap[b]? = some q →
      q.isFinished = true → u.preemptProcess j = u) :=
  retirement_before_preemption c10S 0 0 "T" c10Core c10Core1 [c10P] 0 c10P
    (by decide) (by decide) (by decide) (by decide) (by decide) (by decide)

/-- C2 (amended): the quantum counter `executedCycles` does not advance on
busy-wait cycles (the delay counter is decremented instead), but on every
non-busy-wait cycle it advances by exactly one — including cycles that
only decrement a positive `sleepCounter` and execute no instruction — and
under Round-Robin the preemption branch runs exactly when the incremented
counter has reached `quantumCycles` (and the process is not finished);
preemption then appends the process to the ready queue. -/
theorem quantum_counter_semantics
    (core : CPUCore) (heap : List Process) (d : Int) (r : Nat) (t : String)
    (a : Nat) (p : Process)
    (hcp : core.currentProcess = some a) (hidle : core.isIdle = false)
    (hheap : heap[a]? = some p) :
    (0 < core.delayCyclesRemaining →
      core.executeCycle heap d r t =
        some ({ core with delayCyclesRemaining := core.delayCyclesRemaining - 1 }, heap)) ∧
    (core.delayCyclesRemaining ≤ 0 → ∀ p1, p.executeInstruction r t = some p1 →
      core.executeCycle heap d r t =
        some (core.afterExec d p1, listModify heap a (fun _ => p1))) ∧
    (0 < p.sleepCounter →
      p.executeInstruction r t = some (p.setSleep (p.sleepCounter - 1))) ∧
    (∀ (s : Scheduler) (i : Nat) (p1 : Process),
      s.cpuCores[i]? = some core → s.heap = heap → s.config.delayPerExec = d →
      core.delayCyclesRemaining ≤ 0 →
      p.executeInstruction r t = some p1 → p1.isFinished = false →
      s.coreCycleStep i r t = some (
        if s.config.schedulerType = "rr" ∧
            s.config.quantumCycles ≤ core.executedCycles + 1 then
          Scheduler.preemptProcess
            { s with
              cpuCores := listModify s.cpuCores i (fun _ => core.afterExec d p1),
              heap := listModify heap a (fun _ => p1) } i
        else
          { s with
            cpuCores := listModify s.cpuCores i (fun _ => core.afterExec d p1),
            heap := listModify heap a (fun _ => p1) })) ∧
    (∀ (u : Scheduler) (j b : Nat) (c : CPUCore) (q : Process),
      u.cpuCores[j]? = some c → c.currentProcess = some b → u.heap[b]? = some q →
      q.isFinished = false →
      (u.preemptProcess j).readyQueue = u.readyQueue ++ [b]) := by
  refine ⟨?_, ?_, ?_, ?_, ?_⟩
  · intro hdel
    unfold CPUCore.executeCycle
    rw [hcp]
    simp only [hidle, Bool.false_eq_true, if_false, if_pos hdel]
  · intro hdel p1 hstep
    exact executeCycle_spec core heap d r t a p p1 hcp hidle hdel hheap hstep
  · intro hsleep
    unfold Process.executeInstruction
    rw [if_pos hsleep]
  · intro s i p1 hcore hh hd hdel hstep hnf
    subst hh
    subst hd
    have hex := executeCycle_spec core s.heap s.config.delayPerExec r t a p p1
      hcp hidle hdel hheap hstep
    have e1 : (listModify s.cpuCores i (fun _ => core.afterExec s.config.delayPerExec p1))[i]?
        = some (core.afterExec s.config.delayPerExec p1) := by
      rw [listModify_getElem_self, hcore]
      rfl
    have e2 : CPUCore.processFinished (core.afterExec s.config.delayPerExec p1)
        (listModify s.heap a (fun _ => p1)) = false := by
      unfold CPUCore.processFinished CPUCore.afterExec
      simp only [hcp]
      show (match (listModify s.heap a (fun _ => p1))[a]? with
        | none => false
        | some q => q.isFinished) = false
      rw [listModify_getElem_self, hheap]
      simpa using hnf
    unfold Scheduler.coreCycleStep
    rw [hcore]
    simp only [hidle, Bool.false_eq_true, if_false, hcp]
    rw [hex]
    simp only [e1, e2, Bool.false_eq_true, if_false]
    by_cases hC : s.config.schedulerType = "rr" ∧
        s.config.quantumCycles ≤ (core.afterExec s.config.delayPerExec p1).executedCycles
    · rw [if_pos hC, if_pos (by exact hC)]
    · rw [if_neg hC, if_neg (by exact hC)]
  · intro u j b c q hc hb hq hqf
    simp only [Scheduler.preemptProcess, hc, hb, hq, hqf, Bool.false_eq_true, if_false]

def c2P : Process :=
  Process.createCustom "p" 0 3 "A" ["SLEEP 3", "PRINT x", "PRINT y"] "T"

def c2Core : CPUCore :=
  { coreID := 0, currentProcess := some 0, isIdle := false,
    executedCycles := 1, delayCyclesRemaining := 0 }

theorem quantum_counter_semantics_witness :
    (0 < c2Core.delayCyclesRemaining →
      c2Core.executeCycle [c2P] 0 0 "T" =
        some ({ c2Core with delayCyclesRemaining := c2Core.delayCyclesRemaining - 1 }, [c2P])) ∧
    (c2Core.delayCyclesRemaining ≤ 0 → ∀ p1, c2P.executeInstruction 0 "T" = some p1 →
      c2Core.executeCycle [c2P] 0 0 "T" =
        some (c2Core.afterExec 0 p1, listModify [c2P] 0 (fun _ => p1))) ∧
    (0 < c2P.sleepCounter →
      c2P.executeInstruction 0 "T" = some (c2P.setSleep (c2P.sleepCounter - 1))) ∧
    (∀ (s : Scheduler) (i : Nat) (p1 : Process),
      s.cpuCores[i]? = some c2Core → s.heap = [c2P] → s.config.delayPerExec = 0 →
      c2Core.delayCyclesRemaining ≤ 0 →
      c2P.executeInstruction 0 "T" = some p1 → p1.isFinished = false →
      s.coreCycleStep i 0 "T" = some (
        if s.config.schedulerType = "rr" ∧
            s.config.quantumCycles ≤ c2Core.executedCycles + 1 then
          Scheduler.preemptProcess
            { s with
              cpuCores := listModify s.cpuCores i (fun _ => c2Core.afterExec 0 p1),
              heap := listModify [c2P] 0 (fun _ => p1) } i
        else
          { s with
            cpuCores := listModify s.cpuCores i (fun _ => c2Core.afterExec 0 p1),
            heap := listModify [c2P] 0 (fun _ => p1) })) ∧
    (∀ (u : Scheduler) (j b : Nat) (c : CPUCore) (q : Process),
      u.cpuCores[j]? = some c → c.currentProcess = some b → u.heap[b]? = some q →
      q.isFinished = false →
      (u.preemptProcess j).readyQueue = u.readyQueue ++ [b]) :=
  quantum_counter_semantics c2Core [c2P] 0 0 "T" 0 c2P (by decide) (by decide) (by decide)

def c2Config : SystemConfig :=
  { numCPUs := 1, schedulerType := "rr", quantumCycles := 2, batchProcessFreq := 1,
    minInstructions := 1, maxInstructions := 1, delayPerExec := 0,
    maxOverallMem := 1024, memPerFrame := 16, minMemPerProc := 4, maxMemPerProc := 64 }

def c2Core0 : CPUCore :=
  { coreID := 0, currentProcess := some 0, isIdle := false,
    executedCycles := 0, delayCyclesRemaining := 0 }

def c2S : Scheduler :=
  { config := c2Config, cpuCores := [c2Core0], heap := [c2P], readyQueue := [],
    runningProcesses := [0], finishedProcesses := [], isRunning := true,
    autoGenerateProcesses := false, totalProcessesCreated := 1, currentCycle := 0 }

/-- Counterexample to C2 as stated: with Round-Robin quantum 2 and no
execution delay, a process that runs `SLEEP 3` and then sleeps is
preempted (requeued) after its second cycle although only one instruction
was actually executed on the dispatch — the quantum counter advanced on
the sleeping cycle. -/
theorem quantum_counter_counterexample :
    c2S.config.schedulerType = "rr" ∧
    c2S.config.quantumCycles = 2 ∧
    (c2S.coreCycleStep 0 0 "T").isSome = true ∧
    (((c2S.coreCycleStep 0 0 "T").getD c2S).coreCycleStep 0 0 "T").isSome = true ∧
    ((((c2S.coreCycleStep 0 0 "T").getD c2S).coreCycleStep 0 0 "T").getD c2S).readyQueue = [0] ∧
    (∀ q ∈ ((((c2S.coreCycleStep 0 0 "T").getD c2S).coreCycleStep 0 0 "T").getD c2S).heap,
      q.instructionsExecuted = 1) := by
  decide

/-! ## Claim C6: findProcess -/

/-- The comparison `p->getName() == name` for the pointer at heap index
`a` (only valid pointers are dereferenced in reachable states). -/
def Scheduler.procMatch (s : Scheduler) (name : String) (a : Nat) : Bool :=
  match s.heap[a]? with
  | none => false
  | some p => p.processName == name

/-- `Scheduler::findProcess`: scan the running list, then the finished
list, returning the first pointer whose name matches. -/
def Scheduler.findProcess (s : Scheduler) (name : String) : Option Nat :=
  match s.runningProcesses.find? (fun a => s.procMatch name a) with
  | some a => some a
  | none => s.finishedProcesses.find? (fun a => s.procMatch name a)

theorem find?_eq_some_first {α : Type} (P : α → Bool) (l : List α) (a : α)
    (h : l.find? P = some a) :
    P a = true ∧ ∃ i : Nat, l[i]? = some a ∧
      ∀ j : Nat, j < i → ∀ b, l[j]? = some b → P b = false := by
  induction l with
  | nil => exact Option.noConfusion h
  | cons x xs ih =>
    by_cases hx : P x = true
    · rw [List.find?_cons_of_pos _ hx] at h
      injection h with h2
      subst h2
      refine ⟨hx, 0, by simp, ?_⟩
      intro j hj
      omega
    · rw [List.find?_cons_of_neg _ hx] at h
      obtain ⟨hPa, i, hi, hfirst⟩ := ih h
      refine ⟨hPa, i + 1, by simpa using hi, ?_⟩
      intro j hj b hb
      cases j with
      | zero =>
        simp only [List.getElem?_cons_zero] at hb
        injection hb with hb2
        subst hb2
        exact Bool.not_eq_true _ ▸ (by simpa using hx)
      | succ k =>
        simp only [List.getElem?_cons_succ] at hb
        exact hfirst k (by omega) b hb

theorem find?_eq_none_all {α : Type} (P : α → Bool) (l : List α)
    (h : l.find? P = none) : ∀ b ∈ l, P b = false := by
  induction l with
  | nil => intro b hb; exact absurd hb (List.not_mem_nil b)
  | cons x xs ih =>
    by_cases hx : P x = true
    · rw [List.find?_cons_of_pos _ hx] at h
      exact Option.noConfusion h
    · rw [List.find?_cons_of_neg _ hx] at h
      intro b hb
      rcases List.mem_cons.mp hb with hbx | hbxs
      · subst hbx
        simpa using hx
      · exact ih h b hbxs

/-- C6 (amended): `findProcess` scans the running list first, then the
finished list, and returns null exactly when no process matches; among
several processes sharing the name it resolves to the FIRST match in scan
order — the oldest entry, not the most recent one. -/
theorem findProcess_first_match (s : Scheduler) (name : String) :
    (s.findProcess name = none ↔
      ((∀ a ∈ s.runningProcesses, s.procMatch name a = false) ∧
       (∀ a ∈ s.finishedProcesses, s.procMatch name a = false))) ∧
    (∀ a, s.findProcess name = some a →
      s.procMatch name a = true ∧
      ((∃ i : Nat, s.runningProcesses[i]? = some a ∧
          ∀ j : Nat, j < i → ∀ b, s.runningProcesses[j]? = some b →
            s.procMatch name b = false) ∨
       ((∀ b ∈ s.runningProcesses, s.procMatch name b = false) ∧
        ∃ i : Nat, s.finishedProcesses[i]? = some a ∧
          ∀ j : Nat, j < i → ∀ b, s.finishedProcesses[j]? = some b →
            s.procMatch name b = false))) := by
  unfold Scheduler.findProcess
  cases hrun : s.runningProcesses.find? (fun a => s.procMatch name a) with
  | some x =>
    simp only
    constructor
    · constructor
      · intro hx
        exact Option.noConfusion hx
      · intro ⟨h1, _⟩
        obtain ⟨hPx, i, hi, _⟩ := find?_eq_some_first _ _ _ hrun
        have hmem : x ∈ s.runningProcesses := by
          exact List.getElem?_mem hi
        rw [h1 x hmem] at hPx
        exact Bool.noConfusion hPx
    · intro a ha
      injection ha with ha2
      subst ha2
      obtain ⟨hPx, i, hi, hfirst⟩ := find?_eq_some_first _ _ _ hrun
      exact ⟨hPx, Or.inl ⟨i, hi, hfirst⟩⟩
  | none =>
    simp only
    have hnone := find?_eq_none_all _ _ hrun
    constructor
    · constructor
      · intro hfin
        exact ⟨hnone, find?_eq_none_all _ _ hfin⟩
      · intro ⟨_, h2⟩
        cases hfin : s.finishedProcesses.find? (fun a => s.procMatch name a) with
        | none => rfl
        | some y =>
          obtain ⟨hPy, i, hi, _⟩ := find?_eq_some_first _ _ _ hfin
          rw [h2 y (List.getElem?_mem hi)] at hPy
          exact Bool.noConfusion hPy
    · intro a ha
      obtain ⟨hPa, i, hi, hfirst⟩ := find?_eq_some_first _ _ _ ha
      exact ⟨hPa, Or.inr ⟨hnone, i, hi, hfirst⟩⟩

def c6S : Scheduler :=
  { config := c10Config, cpuCores := [],
    heap := [Process.create "dup" 0 1 "A", Process.create "dup" 1 1 "B"],
    readyQueue := [], runningProcesses := [0, 1], finishedProcesses := [],
    isRunning := true, autoGenerateProcesses := false,
    totalProcessesCreated := 2, currentCycle := 0 }

/-- Counterexample to C6 as stated: two running processes share the name
"dup"; index 1 holds the more recently created process (id 1), yet
`findProcess` returns the first (oldest) match, index 0. -/
theorem findProcess_counterexample :
    c6S.runningProcesses = [0, 1] ∧
    (∀ q ∈ c6S.heap, q.processName = "dup") ∧
    (c6S.heap[0]?).map Process.processID = some 0 ∧
    (c6S.heap[1]?).map Process.processID = some 1 ∧
    c6S.findProcess "dup" = some 0 ∧
    ¬ c6S.findProcess "dup" = some 1 := by
  decide

/-! ## Claims C5 and C9: process creation paths (src/mainMenu.h) -/

def Scheduler.getTotalProcesses (s : Scheduler) : Int :=
  s.totalProcessesCreated

/-- One iteration of `Scheduler::processGenerationLoop`: create a process
named and numbered by `totalProcessesCreated`, generate its instructions,
set its log path, increment the counter, and enqueue it. -/
def Scheduler.generateOneProcess (s : Scheduler) (rand : Nat) (rands : Nat → Nat)
    (t : String) : Scheduler :=
  let instructions : Int := s.config.minInstructions +
    Int.tmod (rand : Int) (s.config.maxInstructions - s.config.minInstructions + 1)
  let name := "Process_" ++ toString s.totalProcessesCreated
  let p0 := (Process.create name s.totalProcessesCreated instructions t).generateInstructions
    rands instructions
  let p1 := p0.setLogFilePath ("logs/" ++ p0.processName ++ ".txt")
  ({ s with
     heap := s.heap ++ [p1],
     totalProcessesCreated := s.totalProcessesCreated + 1 }).addProcess s.heap.length

structure MainMenuState where
  scheduler : Scheduler
  memoryManager : MemoryManager
deriving Repr, DecidableEq

/-- The argument parsing and validation of `screen -s <name> <memsize>`:
name and memory size split on the first space, `std::stoi`, assignment to
`size_t` (a negative value wraps modulo `2^64`), power-of-two check, and
the `[64, 65536]` range check.  `none` is every rejection path. -/
def screenSParse (input : String) : Option (String × Nat) :=
  if strStarts input "screen -s " = false then none
  else
    let argsd := (((input.data.drop 10).dropWhile (fun c => c == ' ')).reverse.dropWhile
      (fun c => c == ' ')).reverse
    if argsd.isEmpty then none
    else
      match argsd.findIdx? (fun c => c == ' ') with
      | none => none
      | some spacePos =>
        let name := String.mk (argsd.take spacePos)
        let memStr := String.mk ((argsd.drop (spacePos + 1)).dropWhile (fun c => c == ' '))
        match cppStoi memStr with
        | none => none
        | some v =>
          let m : Nat := (v % (W64 : Int)).toNat
          if 0 < m ∧ (m &&& (m - 1)) = 0 then
            if 64 ≤ m ∧ m ≤ 65536 then some (name, m) else none
          else none

/-- The `screen -s` creation path (mainMenu.h 522-612): the new process
takes id `getTotalProcesses()` — the counter is NOT incremented — and is
kept only when `allocateMemory` succeeds (a failed allocation still
mutates the manager's failure counter). -/
def MainMenu.handleScreenS (st : MainMenuState) (input : String) (rand : Nat)
    (rands : Nat → Nat) (now : Nat) (t : String) : MainMenuState :=
  match screenSParse input with
  | none => st
  | some (name, memSize) =>
    let instructions : Int := st.scheduler.config.minInstructions +
      Int.tmod (rand : Int)
        (st.scheduler.config.maxInstructions - st.scheduler.config.minInstructions + 1)
    let p0 := Process.create name st.scheduler.getTotalProcesses instructions "Manual"
    let p1 := p0.setMemoryRequirement (memSize : Int) (st.scheduler.config.memPerFrame : Int)
    let res := st.memoryManager.allocateMemory p1.processID p1.processName memSize now
    if res.1 = false then
      { st with memoryManager := res.2 }
    else
      let p2 := (p1.generateInstructions rands instructions).setLogFilePath
        ("logs/" ++ p1.processName ++ ".txt")
      { scheduler := ({ st.scheduler with
          heap := st.scheduler.heap ++ [p2] }).addProcess st.scheduler.heap.length,
        memoryManager := res.2 }

/-- `std::getline(ss, line, d)` loop: all delimiter-separated segments,
except that the segment after a trailing delimiter (or of an empty
string) is never produced. -/
def splitCharAux (d : Char) : List Char → List Char → List String
  | [], acc => [String.mk acc.reverse]
  | c :: rest, acc =>
    if c == d then String.mk acc.reverse :: splitCharAux d rest []
    else splitCharAux d rest (c :: acc)

def cppGetlines (d : Char) (s : String) : List String :=
  let parts := splitCharAux d s.data []
  if parts.getLast? = some "" then parts.dropLast else parts

def lastIdx? (l : List Char) (c : Char) : Option Nat :=
  match l.reverse.findIdx? (fun d => d == c) with
  | none => none
  | some j => some (l.length - 1 - j)

/-- The argument parsing of `screen -c <name> "i1; i2; ..."`
(mainMenu.h 616-652): quote positions via `find`/`rfind`, name between
position 10 and the first quote (trimmed), instruction text between the
quotes split on semicolons with trimmed nonempty lines kept.  There is no
instruction-count upper bound and no memory-size argument. -/
def screenCParse (input : String) : Option (String × List String) :=
  if strStarts input "screen -c " = false then none
  else
    match input.data.findIdx? (fun c => c == '"'), lastIdx? input.data '"' with
    | some fq, some lq =>
      if fq = lq then none
      else
        let processName := cppTrim (String.mk ((input.data.drop 10).take (fq - 10)))
        let instructionText := String.mk ((input.data.drop (fq + 1)).take (lq - fq - 1))
        if processName = "" then none
        else
          let instructions :=
            ((cppGetlines ';' instructionText).map cppTrim).filter (fun l2 => l2 ≠ "")
          if instructions.isEmpty then none else some (processName, instructions)
    | _, _ => none

/-- The `screen -c` creation path (mainMenu.h 616-685): custom process
with id `getTotalProcesses()` (no increment), fixed memory size 1024,
kept only when `allocateMemory` succeeds. -/
def MainMenu.handleScreenC (st : MainMenuState) (input : String) (now : Nat)
    (t : String) : MainMenuState :=
  match screenCParse input with
  | none => st
  | some (processName, instructions) =>
    let memSize : Nat := 1024
    let p0 := Process.createCustom processName st.scheduler.getTotalProcesses
      (instructions.length : Int) "Manual" instructions t
    let p1 := p0.setMemoryRequirement (memSize : Int) (st.scheduler.config.memPerFrame : Int)
    let res := st.memoryManager.allocateMemory p1.processID p1.processName memSize now
    if res.1 = false then
      { st with memoryManager := res.2 }
    else
      let p2 := p1.setLogFilePath ("logs/" ++ p1.processName ++ ".txt")
      { scheduler := ({ st.scheduler with
          heap := st.scheduler.heap ++ [p2] }).addProcess st.scheduler.heap.length,
        memoryManager := res.2 }

/-- C5 (amended): the background generator assigns id
`totalProcessesCreated` and then increments the counter, so its ids are
strictly increasing; but `screen -s` and `screen -c` assign
`getTotalProcesses()` WITHOUT incrementing the counter, so a facade-created
process reuses the current counter value and ids are not unique across
creation paths. -/
theorem process_id_assignment (s : Scheduler) (st : MainMenuState) (input : String)
    (rand now : Nat) (rands : Nat → Nat) (t : String) :
    ((s.generateOneProcess rand rands t).totalProcessesCreated
        = s.totalProcessesCreated + 1 ∧
     (s.generateOneProcess rand rands t).heap.map Process.processID
        = s.heap.map Process.processID ++ [s.totalProcessesCreated]) ∧
    ((MainMenu.handleScreenS st input rand rands now t).scheduler.totalProcessesCreated
        = st.scheduler.totalProcessesCreated ∧
     ((MainMenu.handleScreenS st input rand rands now t).scheduler.heap.map Process.processID
          = st.scheduler.heap.map Process.processID ∨
      (MainMenu.handleScreenS st input rand rands now t).scheduler.heap.map Process.processID
          = st.scheduler.heap.map Process.processID ++ [st.scheduler.totalProcessesCreated])) ∧
    ((MainMenu.handleScreenC st input now t).scheduler.totalProcessesCreated
        = st.scheduler.totalProcessesCreated ∧
     ((MainMenu.handleScreenC st input now t).scheduler.heap.map Process.processID
          = st.scheduler.heap.map Process.processID ∨
      (MainMenu.handleScreenC st input now t).scheduler.heap.map Process.processID
          = st.scheduler.heap.map Process.processID ++ [st.scheduler.totalProcessesCreated])) := by
  refine ⟨⟨?_, ?_⟩, ?_, ?_⟩
  · simp [Scheduler.generateOneProcess, Scheduler.addProcess]
  · simp [Scheduler.generateOneProcess, Scheduler.addProcess, Process.create,
      Process.generateInstructions, Process.setLogFilePath]
  · unfold MainMenu.handleScreenS
    cases hp : screenSParse input with
    | none => exact ⟨rfl, Or.inl rfl⟩
    | some pr =>
      obtain ⟨name, m⟩ := pr
      dsimp only
      split
      · exact ⟨rfl, Or.inl rfl⟩
      · refine ⟨rfl, Or.inr ?_⟩
        simp [Scheduler.addProcess, Process.create, Process.generateInstructions,
          Process.setLogFilePath, Process.setMemoryRequirement, Scheduler.getTotalProcesses]
  · unfold MainMenu.handleScreenC
    cases hp : screenCParse input with
    | none => exact ⟨rfl, Or.inl rfl⟩
    | some pr =>
      obtain ⟨name, instrs⟩ := pr
      dsimp only
      split
      · exact ⟨rfl, Or.inl rfl⟩
      · refine ⟨rfl, Or.inr ?_⟩
        simp [Scheduler.addProcess, Process.createCustom, Process.create,
          Process.generateSpecificInstructions, Process.setLogFilePath,
          Process.setMemoryRequirement, Scheduler.getTotalProcesses]

def c5Config : SystemConfig :=
  { numCPUs := 1, schedulerType := "fcfs", quantumCycles := 5, batchProcessFreq := 1,
    minInstructions := 1, maxInstructions := 1, delayPerExec := 0,
    maxOverallMem := 256, memPerFrame := 16, minMemPerProc := 64, maxMemPerProc := 65536 }

def c5S0 : Scheduler :=
  { config := c5Config, cpuCores := [CPUCore.init 0], heap := [], readyQueue := [],
    runningProcesses := [], finishedProcesses := [], isRunning := true,
    autoGenerateProcesses := true, totalProcessesCreated := 0, currentCycle := 0 }

def c5MM : MemoryManager :=
  MemoryManager.create 256 16 64 65536 AllocationType.PAGING AllocationStrategy.FIRST_FIT

def c5St1 : MainMenuState :=
  MainMenu.handleScreenS { scheduler := c5S0, memoryManager := c5MM }
    "screen -s alpha 64" 0 (fun _ => 0) 0 "T"

def c5S2 : Scheduler :=
  c5St1.scheduler.generateOneProcess 0 (fun _ => 0) "T"

/-- Counterexample to C5 as stated: a `screen -s` process takes id 0
without incrementing the counter, so the next generator-created process
also takes id 0 — two processes created in sequence with equal, not
increasing, ids. -/
theorem monotonic_id_counterexample :
    c5St1.scheduler.heap.map Process.processName = ["alpha"] ∧
    c5S2.heap.map Process.processName = ["alpha", "Process_0"] ∧
    c5S2.heap.map Process.processID = [0, 0] := by
  decide

/-- C9 (amended): `screen -c` accepts a custom program exactly when the
quoted text contains at least one nonempty (trimmed) instruction and a
nonempty name precedes the quotes — there is NO upper bound of 50
instructions and NO bytes argument: the memory size is fixed at 1024 —
and, allocation succeeding, it creates the process with exactly the
parsed instructions (filtered by the valid-command check). -/
theorem screen_c_acceptance (st : MainMenuState) (input : String) (now : Nat)
    (t : String) (name : String) (instrs : List String)
    (hp : screenCParse input = some (name, instrs))
    (halloc : (st.memoryManager.allocateMemory st.scheduler.totalProcessesCreated
        name 1024 now).1 = true) :
    instrs ≠ [] ∧
    (MainMenu.handleScreenC st input now t).scheduler.heap.length
        = st.scheduler.heap.length + 1 ∧
    ∃ q : Process,
      (MainMenu.handleScreenC st input now t).scheduler.heap
          = st.scheduler.heap ++ [q] ∧
      (MainMenu.handleScreenC st input now t).scheduler.readyQueue
          = st.scheduler.readyQueue ++ [st.scheduler.heap.length] ∧
      q.processName = name ∧
      q.processID = st.scheduler.totalProcessesCreated ∧
      q.memoryRequired = 1024 ∧
      q.instructions = (instrs.map cppTrim).filter
        (fun i2 => validCommands.any (fun cmd => strStarts i2 cmd)) ∧
      (MainMenu.handleScreenC st input now t).memoryManager
          = (st.memoryManager.allocateMemory st.scheduler.totalProcessesCreated
              name 1024 now).2 := by
  have hne : instrs ≠ [] := by
    unfold screenCParse at hp
    dsimp only at hp
    repeat' split at hp
    all_goals try exact Option.noConfusion hp
    rename_i hnotempty
    injection hp with hp2
    injection hp2 with hpn hpi
    subst hpi
    intro hnil
    exact hnotempty (by rw [hnil]; rfl)
  refine ⟨hne, ?_⟩
  unfold MainMenu.handleScreenC
  rw [hp]
  simp only [Process.createCustom, Process.create, Process.generateSpecificInstructions,
    Process.setMemoryRequirement, Process.setLogFilePath, Scheduler.getTotalProcesses,
    Scheduler.addProcess]
  rw [halloc]
  simp only [Bool.true_eq_false, if_false]
  refine ⟨by simp, ?_⟩
  refine ⟨_, rfl, trivial, rfl, rfl, by norm_num, rfl, trivial⟩

def c9Config : SystemConfig :=
  { numCPUs := 1, schedulerType := "fcfs", quantumCycles := 5, batchProcessFreq := 1,
    minInstructions := 1, maxInstructions := 1, delayPerExec := 0,
    maxOverallMem := 1024, memPerFrame := 256, minMemPerProc := 64, maxMemPerProc := 65536 }

def c9Sched : Scheduler :=
  { config := c9Config, cpuCores := [CPUCore.init 0], heap := [], readyQueue := [],
    runningProcesses := [], finishedProcesses := [], isRunning := true,
    autoGenerateProcesses := false, totalProcessesCreated := 0, currentCycle := 0 }

def c9MM : MemoryManager :=
  MemoryManager.create 1024 256 64 65536 AllocationType.PAGING AllocationStrategy.FIRST_FIT

def c9St : MainMenuState :=
  { scheduler := c9Sched, memoryManager := c9MM }

def c9Input : String :=
  "screen -c gamma \"PRINT a; PRINT b\""

theorem screen_c_acceptance_witness :
    (["PRINT a", "PRINT b"] : List String) ≠ [] ∧
    (MainMenu.handleScreenC c9St c9Input 0 "T").scheduler.heap.length
        = c9St.scheduler.heap.length + 1 ∧
    ∃ q : Process,
      (MainMenu.handleScreenC c9St c9Input 0 "T").scheduler.heap
          = c9St.scheduler.heap ++ [q] ∧
      (MainMenu.handleScreenC c9St c9Input 0 "T").scheduler.readyQueue
          = c9St.scheduler.readyQueue ++ [c9St.scheduler.heap.length] ∧
      q.processName = "gamma" ∧
      q.processID = c9St.scheduler.totalProcessesCreated ∧
      q.memoryRequired = 1024 ∧
      q.instructions = ((["PRINT a", "PRINT b"] : List String).map cppTrim).filter
        (fun i2 => validCommands.any (fun cmd => strStarts i2 cmd)) ∧
      (MainMenu.handleScreenC c9St c9Input 0 "T").memoryManager
          = (c9St.memoryManager.allocateMemory c9St.scheduler.totalProcessesCreated
              "gamma" 1024 0).2 :=
  screen_c_acceptance c9St c9Input 0 "T" "gamma" ["PRINT a", "PRINT b"]
    (by decide) (by decide)

def c9InputBig : String :=
  "screen -c big " ++ "\"" ++ String.intercalate "; " (List.replicate 51 "PRINT x") ++ "\""

set_option maxRecDepth 100000 in
/-- Counterexample to C9 as stated: a 51-instruction custom program is
accepted and creates a process — there is no 50-instruction cap — and no
bytes argument exists: the created process gets the fixed 1024. -/
theorem screen_c_counterexample :
    (screenCParse c9InputBig).map (fun pr => pr.2.length) = some 51 ∧
    (MainMenu.handleScreenC c9St c9InputBig 0 "T").scheduler.heap.map
      (fun q => q.instructions.length) = [51] ∧
    (MainMenu.handleScreenC c9St c9InputBig 0 "T").scheduler.heap.map
      (fun q => q.memoryRequired) = [1024] := by
  decide

end CSOPESY


